import Mathlib

/-!
Verification of the rss-fuse virtual filesystem engine against its
natural-language specification.

The development shallowly embeds the Rust sources:
  - src/feed/mod.rs        (Article, Feed, id derivation, filenames, to_text)
  - src/content/extractor.rs (Markdown extraction pipeline)
  - src/fuse/inode.rs      (VNode, InodeManager: create_node, remove_node, ...)
  - src/fuse/filesystem.rs (add_feed, remove_feed, readdir, read)
  - src/storage/cache.rs   (CacheEntry)
  - src/storage/persistent_cache.rs (PersistentCache load/save)
  - src/storage/repository.rs (refresh_feed, refresh_feed_background)
  - src/config.rs          (Settings defaults)

Modelling conventions: machine integers (u64/u32/usize) are Nat; where the
source performs u64 arithmetic whose overflow is reachable (the cache-age
subtraction in PersistentCache::load), the operation is embedded with an
explicit wrap modulo 2^64 (u64sub), the release-build behaviour — debug
builds panic at the same spot, so either way the affected snapshot never
loads; SystemTime instants are Nat Unix seconds, the unit used
by the persisted representation and all comparisons in the claims; HashMaps
are association lists with insert-overwrite semantics; fallible Rust code
returns Except/Option.  Calls into external crates (blake3, html2md, regex
post-processing, serde_yaml, chrono formatting) are parameters of the
embedding, collected in the Externals structure or passed as explicit
function arguments: the claims never inspect the outputs of those crates,
only whether and how they are invoked.
-/

set_option maxRecDepth 10000

namespace RssFuse

/-! ## Data model (src/feed/mod.rs) -/

/-- ParsedArticle from src/feed/mod.rs.  Timestamps are Unix seconds. -/
structure ParsedArticle where
  title : String
  link : String
  description : Option String
  content : Option String
  author : Option String
  published : Option Nat
  guid : Option String
  categories : List String
deriving DecidableEq, Repr

/-- Article from src/feed/mod.rs. -/
structure Article where
  id : String
  title : String
  link : String
  description : Option String
  content : Option String
  author : Option String
  published : Option Nat
  updated : Option Nat
  tags : List String
  read : Bool
  cached_at : Option Nat
deriving DecidableEq, Repr

/-- FeedStatus from src/feed/mod.rs. -/
inductive FeedStatus where
  | active
  | error (msg : String)
  | updating
  | disabled
deriving DecidableEq, Repr

/-- Feed from src/feed/mod.rs. -/
structure Feed where
  name : String
  url : String
  title : Option String
  description : Option String
  last_updated : Option Nat
  articles : List Article
  status : FeedStatus
deriving DecidableEq, Repr

/-- ParsedFeed from src/feed/mod.rs. -/
structure ParsedFeed where
  title : String
  description : Option String
  link : Option String
  last_build_date : Option Nat
  articles : List ParsedArticle
deriving DecidableEq, Repr

/-- Article::new from src/feed/mod.rs.  The blake3 hex digest of the link is
an external crate call, passed in as `blake3hex`; `now` stands for
`Utc::now()` feeding `cached_at`. -/
def Article.new (blake3hex : String → String) (parsed : ParsedArticle)
    (feed_name : String) (now : Nat) : Article :=
  let id := match parsed.guid with
    | some g => g
    | none => feed_name ++ ":" ++ blake3hex parsed.link
  { id := id
    title := parsed.title
    link := parsed.link
    description := parsed.description
    content := parsed.content
    author := parsed.author
    published := parsed.published
    updated := none
    tags := parsed.categories
    read := false
    cached_at := some now }

/-! ## Filename sanitization (src/feed/mod.rs, markdown_filename) -/

/-- The characters replaced by markdown_filename's match arm. -/
def isIllegalChar (c : Char) : Bool :=
  c = '/' || c = '\\' || c = ':' || c = '*' || c = '?' ||
  c = '"' || c = '<' || c = '>' || c = '|'

/-- Rust char::is_control: the Unicode Cc category, U+0000..U+001F and
U+007F..U+009F. -/
def isControlChar (c : Char) : Bool :=
  c.toNat ≤ 0x1f || (0x7f ≤ c.toNat && c.toNat ≤ 0x9f)

/-- One step of the sanitizing map in markdown_filename. -/
def sanitizeChar (c : Char) : Char :=
  if isIllegalChar c || isControlChar c then '-' else c

/-- The UTF-8 byte length of a character list: Rust String::len counts
bytes, not chars. -/
def utf8Len (l : List Char) : Nat := (l.map Char.utf8Size).sum

/-- Slicing a Rust String at a byte index: `&title[..n]` takes the prefix
occupying exactly `n` bytes and panics (`none` here) when byte offset `n`
falls inside a multi-byte character or past the end. -/
def takeBytes (n : Nat) : List Char → Option (List Char)
  | [] => if n = 0 then some [] else none
  | c :: cs =>
    if n = 0 then some []
    else if c.utf8Size ≤ n then
      (takeBytes (n - c.utf8Size) cs).map (fun p => c :: p)
    else none

/-- Article::markdown_filename from src/feed/mod.rs, on the title's
character list.  `title.len() > 100` compares UTF-8 bytes and
`&title[..97]` slices at byte 97 (a panic, modelled as `none`, when 97 is
not a character boundary). -/
def markdownFilenameChars (title : List Char) : Option (List Char) :=
  let t := title.map sanitizeChar
  if utf8Len t > 100 then
    (takeBytes 97 t).map (fun p => p ++ "...".data ++ ".md".data)
  else
    some (t ++ ".md".data)

/-- Article::markdown_filename on the Article record. -/
def Article.markdown_filename (a : Article) : Option String :=
  (markdownFilenameChars a.title.data).map (fun l => String.mk l)

/-- The sanitization/truncation rule as the specification words it: counts
are in characters, truncation keeps the first 97 characters.  Kept separate
from markdownFilenameChars (the source), for comparison. -/
def specFilenameChars (title : List Char) : List Char :=
  let t := title.map sanitizeChar
  let tr := if t.length > 100 then t.take 97 ++ "...".data else t
  tr ++ ".md".data

/-! ## Content rendering (src/content/extractor.rs, src/feed/mod.rs) -/

/-- ArticleFrontmatter from src/content/extractor.rs. -/
structure ArticleFrontmatter where
  title : String
  author : Option String
  date : Option Nat
  url : String
  feed : String
  tags : List String
  categories : List String
  description : Option String
  guid : Option String
deriving DecidableEq, Repr

/-- External crate calls used by the rendering pipeline: serde_yaml
serialization (fallible in the source, hence Option), the clean_html /
html2md / post-processing string passes (regex and html2md based), and
chrono timestamp formatting. -/
structure Externals where
  yamlSer : ArticleFrontmatter → Option String
  cleanHtml : String → String
  htmlToMd : String → String
  postProcessMd : String → String
  formatTime : Nat → String

/-- ContentExtractor::create_frontmatter from src/content/extractor.rs. -/
def create_frontmatter (a : Article) (feed_name : String) : ArticleFrontmatter :=
  { title := a.title
    author := a.author
    date := a.published
    url := a.link
    feed := feed_name
    tags := a.tags
    categories := []
    description := a.description
    guid := some a.id }

/-- ContentExtractor::extract_content from src/content/extractor.rs:
`article.content.as_ref().or(article.description.as_ref())`, erroring
(ContentExtraction, modelled as `none`) when both are absent, then the
clean_html / html_to_markdown / post_process_markdown passes. -/
def extract_content (ext : Externals) (a : Article) : Option String :=
  match a.content.or a.description with
  | none => none
  | some html => some (ext.postProcessMd (ext.htmlToMd (ext.cleanHtml html)))

/-- ContentExtractor::extract_article from src/content/extractor.rs:
frontmatter, content, YAML serialization, then the final format string. -/
def extract_article (ext : Externals) (a : Article) (feed_name : String) :
    Option String :=
  let fm := create_frontmatter a feed_name
  match extract_content ext a with
  | none => none
  | some content =>
    match ext.yamlSer fm with
    | none => none
    | some yaml => some ("---\n" ++ yaml ++ "---\n\n" ++ content)

/-- Article::to_markdown from src/feed/mod.rs, which delegates to
ContentExtractor::extract_article. -/
def Article.to_markdown (ext : Externals) (a : Article) (feed_name : String) :
    Option String :=
  extract_article ext a feed_name

/-- Article::to_text from src/feed/mod.rs: the plain-text fallback format. -/
def Article.to_text (ext : Externals) (a : Article) : String :=
  let t1 := "Title: " ++ a.title ++ "\n"
  let t2 := match a.author with
    | some au => t1 ++ "Author: " ++ au ++ "\n"
    | none => t1
  let t3 := match a.published with
    | some p => t2 ++ "Published: " ++ ext.formatTime p ++ "\n"
    | none => t2
  let t4 := t3 ++ "Link: " ++ a.link ++ "\n"
  let t5 := if a.tags.isEmpty then t4
    else t4 ++ "Tags: " ++ String.intercalate ", " a.tags ++ "\n"
  let t6 := t5 ++ "\n---\n\n"
  match a.content with
  | some c => t6 ++ c
  | none =>
    match a.description with
    | some d => t6 ++ d
    | none => t6 ++ "No content available. Visit the link above to read the full article."

/-- The article body served through the filesystem: markdown with a
to_text fallback (`article.to_markdown(feed).unwrap_or_else(|_| article.to_text())`),
the expression appearing in VNode::new and get_article_content. -/
def renderedContent (ext : Externals) (feed_name : String) (a : Article) : String :=
  (Article.to_markdown ext a feed_name).getD (Article.to_text ext a)

/-! ## Configuration defaults (src/config.rs) -/

/-- Settings from src/config.rs.  `user_agent` embeds the build-time crate
version, passed in as `ver`. -/
structure Settings where
  refresh_interval : Nat
  cache_duration : Nat
  max_articles : Nat
  concurrent_fetches : Nat
  article_content : Bool
  user_agent : String
  timeout : Nat
  retry_attempts : Nat
  max_article_size : Nat
deriving DecidableEq, Repr

def default_refresh_interval : Nat := 300

def default_cache_duration : Nat := 3600

def default_max_articles : Nat := 100

def default_concurrent_fetches : Nat := 5

def default_article_content : Bool := true

def default_user_agent (ver : String) : String := "RSS-FUSE/" ++ ver

def default_timeout : Nat := 30

def default_retry_attempts : Nat := 3

def default_max_article_size : Nat := 1024 * 1024

/-- Settings::default from src/config.rs. -/
def Settings.default (ver : String) : Settings :=
  { refresh_interval := default_refresh_interval
    cache_duration := default_cache_duration
    max_articles := default_max_articles
    concurrent_fetches := default_concurrent_fetches
    article_content := default_article_content
    user_agent := default_user_agent ver
    timeout := default_timeout
    retry_attempts := default_retry_attempts
    max_article_size := default_max_article_size }

/-! ## Association-list maps

HashMap is modelled as an association list with insert-overwrite
semantics; keys stay unique by construction. -/

/-- Map lookup (HashMap::get). -/
def alookup {κ α : Type} [DecidableEq κ] : List (κ × α) → κ → Option α
  | [], _ => none
  | (k, v) :: rest, key => if k = key then some v else alookup rest key

/-- Map insert (HashMap::insert), overwriting any entry with the key. -/
def ainsert {κ α : Type} [DecidableEq κ] (m : List (κ × α)) (k : κ) (v : α) :
    List (κ × α) :=
  (k, v) :: m.filter (fun p => p.1 ≠ k)

/-- Map removal (HashMap::remove). -/
def aerase {κ α : Type} [DecidableEq κ] (m : List (κ × α)) (k : κ) :
    List (κ × α) :=
  m.filter (fun p => p.1 ≠ k)

/-- In-place update of an entry (HashMap::get_mut followed by mutation);
a no-op when the key is absent. -/
def amodify {κ α : Type} [DecidableEq κ] (m : List (κ × α)) (k : κ) (f : α → α) :
    List (κ × α) :=
  m.map (fun p => if p.1 = k then (p.1, f p.2) else p)

/-! ## Inode tree (src/fuse/inode.rs) -/

/-- fuser::FileType, restricted to the two variants the code constructs. -/
inductive FileType where
  | directory
  | regularFile
deriving DecidableEq, Repr

/-- NodeType from src/fuse/inode.rs. -/
inductive NodeType where
  | root
  | feedDirectory (feed_name : String)
  | articleFile (feed_name : String) (article : Article)
  | metaDirectory
  | configFile
  | logsDirectory
  | cacheDirectory
deriving DecidableEq, Repr

/-- VNode from src/fuse/inode.rs. -/
structure VNode where
  ino : Nat
  parent_ino : Nat
  name : String
  node_type : NodeType
  file_type : FileType
  size : Nat
  children : List Nat
deriving DecidableEq, Repr

/-- VNode::new from src/fuse/inode.rs: file type and size derive from the
node type; an article file's size is the UTF-8 byte length of its rendered
markdown, falling back to to_text on a rendering error. -/
def VNode.new (ext : Externals) (ino parent_ino : Nat) (name : String)
    (node_type : NodeType) : VNode :=
  let ft_sz : FileType × Nat :=
    match node_type with
    | .root | .feedDirectory _ | .metaDirectory
    | .logsDirectory | .cacheDirectory => (.directory, 0)
    | .articleFile feed_name article =>
      (.regularFile, (renderedContent ext feed_name article).utf8ByteSize)
    | .configFile => (.regularFile, 0)
  { ino := ino
    parent_ino := parent_ino
    name := name
    node_type := node_type
    file_type := ft_sz.1
    size := ft_sz.2
    children := [] }

/-- VNode::add_child: append unless already present. -/
def VNode.add_child (v : VNode) (c : Nat) : VNode :=
  if v.children.contains c then v else { v with children := v.children ++ [c] }

/-- VNode::remove_child: retain every other child. -/
def VNode.remove_child (v : VNode) (c : Nat) : VNode :=
  { v with children := v.children.filter (fun i => i ≠ c) }

/-- VNode::is_directory. -/
def VNode.is_directory (v : VNode) : Bool := v.file_type = .directory

/-- InodeManager from src/fuse/inode.rs: node map, fresh-ino counter and
the (parent_ino, name) index. -/
structure InodeManager where
  nodes : List (Nat × VNode)
  next_ino : Nat
  name_to_ino : List ((Nat × String) × Nat)
deriving DecidableEq, Repr

/-- InodeManager::new / create_root: root at ino 1 (its own parent), the
counter starting at 2, and the root's name-index entry. -/
def InodeManager.new (ext : Externals) : InodeManager :=
  { nodes := [(1, VNode.new ext 1 1 "/" .root)]
    next_ino := 2
    name_to_ino := [((1, "/"), 1)] }

/-- InodeManager::get_node. -/
def InodeManager.get_node (m : InodeManager) (ino : Nat) : Option VNode :=
  alookup m.nodes ino

/-- InodeManager::get_node_by_name: name index first, then the node map. -/
def InodeManager.get_node_by_name (m : InodeManager) (parent_ino : Nat)
    (name : String) : Option VNode :=
  match alookup m.name_to_ino (parent_ino, name) with
  | none => none
  | some ino => alookup m.nodes ino

/-- InodeManager::create_node: parent must exist and be a directory, the
name must be free; then allocate the next ino, insert the node, append it
to the parent's children and record the name-index entry. -/
def InodeManager.create_node (ext : Externals) (m : InodeManager)
    (parent_ino : Nat) (name : String) (node_type : NodeType) :
    Except String (Nat × InodeManager) :=
  match m.get_node parent_ino with
  | none => .error "Parent directory not found"
  | some parent =>
    if ¬ parent.is_directory then .error "Parent is not a directory"
    else if (m.get_node_by_name parent_ino name).isSome then
      .error "File already exists"
    else
      let ino := m.next_ino
      let node := VNode.new ext ino parent_ino name node_type
      let nodes1 := ainsert m.nodes ino node
      let nodes2 := amodify nodes1 parent_ino (fun p => p.add_child ino)
      .ok (ino, { nodes := nodes2
                  next_ino := m.next_ino + 1
                  name_to_ino := ainsert m.name_to_ino (parent_ino, name) ino })

/-- InodeManager::remove_node: refuses the root and missing nodes; removes
the node from its parent's children, the node map and the name index. -/
def InodeManager.remove_node (m : InodeManager) (ino : Nat) :
    Except String InodeManager :=
  if ino = 1 then .error "Cannot remove root directory"
  else
    match m.get_node ino with
    | none => .error "Node not found"
    | some node =>
      let nodes1 := amodify m.nodes node.parent_ino (fun p => p.remove_child ino)
      let nodes2 := aerase nodes1 ino
      .ok { nodes := nodes2
            next_ino := m.next_ino
            name_to_ino := aerase m.name_to_ino (node.parent_ino, node.name) }

/-- InodeManager::list_children: the parent's children resolved through the
node map, in insertion order, skipping dangling ids. -/
def InodeManager.list_children (m : InodeManager) (parent_ino : Nat) :
    List VNode :=
  match m.get_node parent_ino with
  | some parent => parent.children.filterMap (fun c => alookup m.nodes c)
  | none => []

/-- InodeManager::create_feed_directory. -/
def InodeManager.create_feed_directory (ext : Externals) (m : InodeManager)
    (feed_name : String) : Except String (Nat × InodeManager) :=
  m.create_node ext 1 feed_name (.feedDirectory feed_name)

/-- InodeManager::create_article_file: find or create the feed directory,
then create the article node under the markdown filename.  The filename
computation can panic (see markdownFilenameChars); that aborts the call. -/
def InodeManager.create_article_file (ext : Externals) (m : InodeManager)
    (feed_name : String) (article : Article) :
    Except String (Nat × InodeManager) :=
  match article.markdown_filename with
  | none => .error "panic: byte 97 is not a char boundary"
  | some filename =>
    match m.get_node_by_name 1 feed_name with
    | some node => m.create_node ext node.ino filename (.articleFile feed_name article)
    | none =>
      match m.create_feed_directory ext feed_name with
      | .error e => .error e
      | .ok (feed_ino, m1) =>
        m1.create_node ext feed_ino filename (.articleFile feed_name article)

/-- InodeManager::get_article_content: re-render the article held by the
node, with the to_text fallback. -/
def InodeManager.get_article_content (ext : Externals) (m : InodeManager)
    (ino : Nat) : Option String :=
  match m.get_node ino with
  | some node =>
    match node.node_type with
    | .articleFile feed_name article => some (renderedContent ext feed_name article)
    | _ => none
  | none => none

/-! ## Filesystem callbacks and feed replacement (src/fuse/filesystem.rs) -/

/-- The POSIX errno values the callback surface replies with. -/
inductive FsErr where
  | enoent
  | enotdir
  | eisdir
  | einval
deriving DecidableEq, Repr

/-- The loop body of remove_feed: remove each child node in the snapshot
order, logging and skipping failures. -/
def removeFold (s : InodeManager) (cs : List VNode) : InodeManager :=
  cs.foldl
    (fun acc c =>
      match acc.remove_node c.ino with
      | .ok m2 => m2
      | .error _ => acc) s

/-- RssFuseFilesystem::remove_feed, tree part: look the feed directory up
under the root, remove each child in the snapshot order, then the directory
itself.  Individual failures are logged and skipped in the source. -/
def remove_feed (m : InodeManager) (feed_name : String) : InodeManager :=
  match m.get_node_by_name 1 feed_name with
  | none => m
  | some feed_node =>
    let m1 := removeFold m (m.list_children feed_node.ino)
    match m1.remove_node feed_node.ino with
    | .ok m2 => m2
    | .error _ => m1

/-- The loop body of add_feed: create one article file per article, logging
and skipping failures. -/
def addArticlesFold (ext : Externals) (feed_name : String) (s : InodeManager)
    (articles : List Article) : InodeManager :=
  articles.foldl
    (fun acc a =>
      match acc.create_article_file ext feed_name a with
      | .ok (_, m3) => m3
      | .error _ => acc) s

/-- RssFuseFilesystem::add_feed, tree part: remove any existing content
(including the directory), re-create the feed directory, then add an
article file per article, logging and skipping failures. -/
def add_feed (ext : Externals) (m : InodeManager) (feed_name : String)
    (articles : List Article) : InodeManager :=
  let m1 := remove_feed m feed_name
  let m2 :=
    match m1.create_feed_directory ext feed_name with
    | .ok (_, m3) => m3
    | .error _ => m1
  addArticlesFold ext feed_name m2 articles

/-- One entry handed to the readdir reply buffer: the ino argument, the
offset cookie, the file type and the name. -/
structure DirEntry where
  ino : Nat
  off : Nat
  kind : FileType
  name : String
deriving DecidableEq, Repr

/-- The readdir reply loop: reply.add appends until the buffer holds `cap`
entries and reports full, which breaks the loop. -/
def readdirLoop (cap : Nat) : List DirEntry → List (Nat × (Nat × FileType × String)) →
    List DirEntry
  | acc, [] => acc
  | acc, (i, (ino, ft, nm)) :: rest =>
    if cap ≤ acc.length then acc
    else readdirLoop cap (acc ++ [⟨ino, i + 1, ft, nm⟩]) rest

/-- RssFuseFilesystem::readdir from src/fuse/filesystem.rs: ENOENT for a
missing ino, ENOTDIR for a non-directory; otherwise the entry list starts
with ("." , ino 1) and (".." , parent ino), then the children; the list is
enumerated, the first `offset` entries are skipped and the reply buffer
(capacity `cap` entries) is filled. -/
def fs_readdir (m : InodeManager) (ino offset cap : Nat) :
    Except FsErr (List DirEntry) :=
  match m.get_node ino with
  | none => .error .enoent
  | some node =>
    if ¬ node.is_directory then .error .enotdir
    else
      let entries : List (Nat × FileType × String) :=
        (1, FileType.directory, ".") ::
        (node.parent_ino, FileType.directory, "..") ::
        (m.list_children ino).map (fun c => (c.ino, c.file_type, c.name))
      .ok (readdirLoop cap [] (entries.enum.drop offset))

/-- The byte slice served by read: content.as_bytes()[start .. min(start+size, len)],
empty once start reaches the end. -/
def readSlice (content : String) (offset size : Nat) : List UInt8 :=
  let bytes := content.toUTF8.toList
  let stop := min (offset + size) bytes.length
  if bytes.length ≤ offset then [] else (bytes.take stop).drop offset

/-- RssFuseFilesystem::read from src/fuse/filesystem.rs: ENOENT for a
missing ino, EISDIR for directories, article files serve their rendered
content, the config file serves the current config text, anything else is
EINVAL. -/
def fs_read (ext : Externals) (m : InodeManager) (config_content : String)
    (ino offset size : Nat) : Except FsErr (List UInt8) :=
  match m.get_node ino with
  | none => .error .enoent
  | some node =>
    if node.is_directory then .error .eisdir
    else
      match node.node_type with
      | .articleFile _ _ =>
        match m.get_article_content ext ino with
        | some content => .ok (readSlice content offset size)
        | none => .error .enoent
      | .configFile => .ok (readSlice config_content offset size)
      | _ => .error .einval

/-! ## Reachable tree states (for the structural invariant) -/

/-- A raw tree mutation: the two primitive operations of the inode map. -/
inductive TreeOp where
  | create (parent_ino : Nat) (name : String) (node_type : NodeType)
  | remove (ino : Nat)
deriving Repr

/-- Apply one operation; a failing operation leaves the state unchanged
(the manager is only mutated on the success paths). -/
def applyOp (ext : Externals) (m : InodeManager) : TreeOp → InodeManager
  | .create p n t =>
    match m.create_node ext p n t with
    | .ok (_, m1) => m1
    | .error _ => m
  | .remove i =>
    match m.remove_node i with
    | .ok m1 => m1
    | .error _ => m

/-- Run a sequence of operations. -/
def execOps (ext : Externals) (m : InodeManager) : List TreeOp → InodeManager
  | [] => m
  | op :: rest => execOps ext (applyOp ext m op) rest

/-- A sequence is leaf-removing when every remove targets a node that has
no children at the moment it runs (the discipline remove_feed follows:
children first, directory last). -/
def leafRemovalsOnly (ext : Externals) : InodeManager → List TreeOp → Bool
  | _, [] => true
  | m, op :: rest =>
    (match op with
     | .remove i =>
       match m.get_node i with
       | some n => n.children.isEmpty
       | none => true
     | .create _ _ _ => true) &&
    leafRemovalsOnly ext (applyOp ext m op) rest

/-- The structural invariant exactly as the specification words it: every
non-root node has an existing parent, occurs exactly once in that parent's
child list, and is the value of its (parent_ino, name) index entry.  Nodes
are keyed by their own ino. -/
def treeInv (m : InodeManager) : Prop :=
  ∀ p ∈ m.nodes, (p : Nat × VNode).2.ino = p.1 ∧
    (p.1 ≠ 1 →
      ∃ par, alookup m.nodes p.2.parent_ino = some par ∧
        par.children.count p.2.ino = 1 ∧
        alookup m.name_to_ino (p.2.parent_ino, p.2.name) = some p.2.ino)

/-! ## Caches (src/storage/cache.rs, src/storage/persistent_cache.rs)

Instants are Unix seconds; the current instant is the explicit `now`. -/

/-- CacheEntry from src/storage/cache.rs. -/
structure CacheEntry (α : Type) where
  data : α
  created_at : Nat
  expires_at : Nat
  access_count : Nat
  last_accessed : Nat
deriving DecidableEq, Repr

/-- CacheEntry::is_expired: SystemTime::now() > expires_at. -/
def CacheEntry.is_expired (now : Nat) (e : CacheEntry α) : Bool :=
  now > e.expires_at

/-- SerializableCacheEntry from src/storage/persistent_cache.rs; with
instants already in seconds the timestamp flattening is the identity on
each field. -/
structure SCacheEntry (α : Type) where
  data : α
  created_at : Nat
  expires_at : Nat
  access_count : Nat
  last_accessed : Nat
deriving DecidableEq, Repr

/-- The From<CacheEntry> conversion writing an entry to disk form. -/
def toSerializable (e : CacheEntry α) : SCacheEntry α :=
  ⟨e.data, e.created_at, e.expires_at, e.access_count, e.last_accessed⟩

/-- The From<SerializableCacheEntry> conversion reading an entry back. -/
def ofSerializable (e : SCacheEntry α) : CacheEntry α :=
  ⟨e.data, e.created_at, e.expires_at, e.access_count, e.last_accessed⟩

/-- PersistentCacheData from src/storage/persistent_cache.rs. -/
structure PersistentCacheData where
  feeds : List (String × SCacheEntry Feed)
  articles : List (String × SCacheEntry Article)
  cache_version : Nat
  saved_at : Nat
deriving DecidableEq, Repr

/-- The source's u64 subtraction `a - b` as release builds compute it: the
difference wrapped modulo 2^64 (debug builds panic when b > a). -/
def u64sub (a b : Nat) : Nat :=
  (a % 2 ^ 64 + 2 ^ 64 - b % 2 ^ 64) % 2 ^ 64

/-- PersistentCache::load from src/storage/persistent_cache.rs, on the
parsed content of the cache file (`none` = file absent; I/O and JSON
failures surface as Err, not Ok(None), and are outside this model).  The
cache age `as_secs() - saved_at` is u64 arithmetic: a future-dated snapshot
(saved_at > now) wraps to a huge age (u64sub; debug builds panic there) and
the snapshot is dropped, as it is whenever the age exceeds max_age_days in
seconds; per-entry values are retained only when they expire strictly after
`now`.  The cache_version field is read but never compared. -/
def PersistentCache.load (max_age_days now : Nat)
    (file : Option PersistentCacheData) : Option PersistentCacheData :=
  match file with
  | none => none
  | some d =>
    let cache_age := u64sub now d.saved_at
    let max_age_seconds := (max_age_days * 24 * 60 * 60) % 2 ^ 64
    if cache_age > max_age_seconds then none
    else
      some { d with
        feeds := d.feeds.filter (fun kv => kv.2.expires_at > now)
        articles := d.articles.filter (fun kv => kv.2.expires_at > now) }

/-- PersistentCache::save from src/storage/persistent_cache.rs: the
document written to disk (the temp-file/rename step is the file I/O the
model abstracts).  Expired entries are filtered out; the snapshot carries
version 1 and the save instant. -/
def PersistentCache.save (now : Nat)
    (feeds : List (String × CacheEntry Feed))
    (articles : List (String × CacheEntry Article)) : PersistentCacheData :=
  { feeds := (feeds.filter (fun kv => ¬ kv.2.is_expired now)).map
      (fun kv => (kv.1, toSerializable kv.2))
    articles := (articles.filter (fun kv => ¬ kv.2.is_expired now)).map
      (fun kv => (kv.1, toSerializable kv.2))
    cache_version := 1
    saved_at := now }

/-! ## Repository refresh (src/storage/repository.rs) -/

/-- The repository state the refresh path touches: the feed cache, the
article cache and the backing storage.  The article cache's LRU bound is
not modelled (no claim inspects evictions). -/
structure RepoState where
  cacheFeeds : List (String × Feed)
  cacheArticles : List (String × Article)
  storageFeeds : List (String × Feed)
deriving DecidableEq, Repr

/-- Repository::store_feed_in_cache_and_storage: cache the feed, cache each
of its articles, then write to storage, whose outcome is the external
parameter `storeOk` (the Storage trait is dyn-dispatched).  The state after
a storage failure keeps the cache mutations already performed. -/
def store_feed_in_cache_and_storage (storeOk : Bool) (feed : Feed)
    (s : RepoState) : Except String Unit × RepoState :=
  let s1 := { s with
    cacheFeeds := ainsert s.cacheFeeds feed.name feed
    cacheArticles := feed.articles.foldl (fun m a => ainsert m a.id a) s.cacheArticles }
  if storeOk then
    (.ok (), { s1 with storageFeeds := ainsert s1.storageFeeds feed.name feed })
  else
    (.error "storage error", s1)

/-- The Feed refresh_feed builds from a fetched ParsedFeed: status Active,
articles through Article::new. -/
def builtFeed (blake3hex : String → String) (now : Nat) (parsed : ParsedFeed)
    (name url : String) : Feed :=
  { name := name
    url := url
    title := some parsed.title
    description := parsed.description
    last_updated := parsed.last_build_date
    articles := parsed.articles.map (fun a => Article.new blake3hex a name now)
    status := .active }

/-- Repository::refresh_feed: the fetcher outcome is the external parameter
`fetched`; on success the ParsedFeed becomes a Feed with status Active and
the store step runs (a failing disk save of the persistent cache is logged
and swallowed). -/
def refresh_feed (blake3hex : String → String) (now : Nat)
    (fetched : Except String ParsedFeed) (storeOk : Bool)
    (name url : String) (s : RepoState) : Except String Feed × RepoState :=
  match fetched with
  | .error e => (.error ("Failed to refresh feed " ++ name ++ ": " ++ e), s)
  | .ok parsed =>
    let feed := builtFeed blake3hex now parsed name url
    match store_feed_in_cache_and_storage storeOk feed s with
    | (.ok _, s1) => (.ok feed, s1)
    | (.error e, s1) => (.error e, s1)

/-- Repository::refresh_feed_background: run refresh_feed; a success is
Ok(Some(feed)), any error is logged and becomes Ok(None). -/
def refresh_feed_background (blake3hex : String → String) (now : Nat)
    (fetched : Except String ParsedFeed) (storeOk : Bool)
    (name url : String) (s : RepoState) :
    Except String (Option Feed) × RepoState :=
  match refresh_feed blake3hex now fetched storeOk name url s with
  | (.ok feed, s1) => (.ok (some feed), s1)
  | (.error _, s1) => (.ok none, s1)

/-- The state create_node builds on success. -/
def createdState (ext : Externals) (m : InodeManager) (parent_ino : Nat)
    (name : String) (node_type : NodeType) : InodeManager :=
  { nodes := amodify
      (ainsert m.nodes m.next_ino (VNode.new ext m.next_ino parent_ino name node_type))
      parent_ino (fun p => p.add_child m.next_ino)
    next_ino := m.next_ino + 1
    name_to_ino := ainsert m.name_to_ino (parent_ino, name) m.next_ino }

/-- The state remove_node leaves behind on success, given the removed node. -/
def removedState (m : InodeManager) (ino : Nat) (node : VNode) : InodeManager :=
  { nodes := aerase (amodify m.nodes node.parent_ino (fun p => p.remove_child ino)) ino
    next_ino := m.next_ino
    name_to_ino := aerase m.name_to_ino (node.parent_ino, node.name) }

/-! ## Concrete fixtures used by counterexamples and witnesses -/

/-- A fixed instantiation of the external crate calls, used wherever a
counterexample or witness needs a concrete evaluation. -/
def ext0 : Externals :=
  { yamlSer := fun _ => none
    cleanHtml := fun s => s
    htmlToMd := fun s => s
    postProcessMd := fun s => s
    formatTime := fun _ => "" }

/-- A second instantiation whose YAML serializer succeeds. -/
def ext1 : Externals :=
  { yamlSer := fun _ => some "title: t\n"
    cleanHtml := fun s => s
    htmlToMd := fun s => s
    postProcessMd := fun s => s
    formatTime := fun _ => "" }

/-- A minimal article titled "a". -/
def artA : Article :=
  { id := "a1", title := "a", link := "l1", description := some "d",
    content := none, author := none, published := none, updated := none,
    tags := [], read := false, cached_at := none }

/-- A minimal article titled "b". -/
def artB : Article :=
  { id := "b1", title := "b", link := "l2", description := some "d",
    content := none, author := none, published := none, updated := none,
    tags := [], read := false, cached_at := none }

/-- A minimal feed used by cache fixtures. -/
def feedF : Feed :=
  { name := "f", url := "u", title := none, description := none,
    last_updated := none, articles := [], status := .active }

/-- A parsed article without a GUID. -/
def parsedNoGuid : ParsedArticle :=
  { title := "t", link := "L", description := none, content := some "c",
    author := none, published := none, guid := none, categories := [] }

/-- A parsed feed with one article. -/
def parsedFeed0 : ParsedFeed :=
  { title := "T", description := none, link := none, last_build_date := none,
    articles := [parsedNoGuid] }

/-- A title of 99 characters occupying 103 UTF-8 bytes: 95 ASCII letters
followed by four copies of U+00E9 (two bytes each). -/
def title95 : List Char :=
  List.replicate 95 'a' ++ List.replicate 4 (Char.ofNat 233)

/-- A serialized feed entry expiring at second 2000. -/
def sEntry2000 : SCacheEntry Feed := ⟨feedF, 0, 2000, 0, 0⟩

/-- A snapshot carrying the unknown cache version 99. -/
def d99 : PersistentCacheData := ⟨[("f", sEntry2000)], [], 99, 1000⟩

/-- A future-dated snapshot: saved_at 2000 lies after the load instant 1000,
so the wrapping u64 age makes load reject it. -/
def dFut : PersistentCacheData := ⟨[("f", sEntry2000)], [], 1, 2000⟩

/-- An in-memory feed entry whose expiry instant is exactly second 100. -/
def ceBoundary : CacheEntry Feed := ⟨feedF, 0, 100, 0, 0⟩

/-- The empty repository state. -/
def repoEmpty : RepoState := ⟨[], [], []⟩

/-- A manager holding one feed directory "f" at ino 2. -/
def mFeedDir : InodeManager :=
  match (InodeManager.new ext0).create_feed_directory ext0 "f" with
  | .ok (_, m) => m
  | .error _ => InodeManager.new ext0

/-- The result of creating one article file in a fresh manager, for the
C10 witness. -/
def w10 : Nat × InodeManager :=
  match (InodeManager.new ext0).create_node ext0 1 "a.md" (.articleFile "f" artA) with
  | .ok r => r
  | .error _ => (0, InodeManager.new ext0)

/-- The tree state reached by creating a directory with a child and then
removing the directory alone, orphaning the child. -/
def orphanState : InodeManager :=
  execOps ext0 (InodeManager.new ext0)
    [.create 1 "A" (.feedDirectory "A"),
     .create 2 "B.md" (.articleFile "A" artB),
     .remove 2]

/-- A leaf-respecting operation sequence: build a feed directory with one
article, then remove the article before the directory. -/
def w2ops : List TreeOp :=
  [.create 1 "A" (.feedDirectory "A"),
   .create 2 "B.md" (.articleFile "A" artB),
   .remove 3,
   .remove 2]

/-- The tree holding feed "f" with the single article artA, as add_feed
builds it from a fresh manager. -/
def mW1 : InodeManager := add_feed ext0 (InodeManager.new ext0) "f" [artA]

/-- The feed directory node of mW1. -/
def dW1 : VNode := (mW1.get_node_by_name 1 "f").getD (VNode.new ext0 0 0 "x" .root)

/-- The primitive-operation sequence equivalent to building mW1. -/
def w1ops : List TreeOp :=
  [.create 1 "f" (.feedDirectory "f"),
   .create 2 "a.md" (.articleFile "f" artA)]

/-- The entry list readdir starts from: dot, dot-dot, then the children in
insertion order. -/
def readdirSpecEntries (m : InodeManager) (node : VNode) (ino : Nat) :
    List (Nat × FileType × String) :=
  (1, FileType.directory, ".") ::
  (node.parent_ino, FileType.directory, "..") ::
  (m.list_children ino).map (fun c => (c.ino, c.file_type, c.name))

/-! ## Shared lemmas on the association-list maps -/

theorem alookup_cons {κ α : Type} [DecidableEq κ] (k : κ) (v : α)
    (l : List (κ × α)) (key : κ) :
    alookup ((k, v) :: l) key = if k = key then some v else alookup l key := rfl

theorem alookup_filter_ne {κ α : Type} [DecidableEq κ] (l : List (κ × α))
    (k key : κ) (hne : key ≠ k) :
    alookup (l.filter (fun p => p.1 ≠ k)) key = alookup l key := by
  induction l with
  | nil => rfl
  | cons a t ih =>
    rcases a with ⟨a1, a2⟩
    simp only [decide_not] at ih
    by_cases ha : a1 = k
    · subst ha
      have h1 : ¬ (a1 = key) := fun h => hne (h.symm)
      simp [List.filter_cons, alookup_cons, ih, h1]
    · simp [List.filter_cons, ha, alookup_cons, ih]

theorem alookup_filter_self {κ α : Type} [DecidableEq κ] (l : List (κ × α))
    (k : κ) :
    alookup (l.filter (fun p => p.1 ≠ k)) k = none := by
  induction l with
  | nil => rfl
  | cons a t ih =>
    rcases a with ⟨a1, a2⟩
    simp only [decide_not] at ih
    by_cases ha : a1 = k
    · simp [List.filter_cons, ha, ih]
    · simp [List.filter_cons, ha, alookup_cons, ih]

theorem alookup_ainsert {κ α : Type} [DecidableEq κ] (l : List (κ × α))
    (k : κ) (v : α) (key : κ) :
    alookup (ainsert l k v) key = if k = key then some v else alookup l key := by
  unfold ainsert
  rw [alookup_cons]
  by_cases h : k = key
  · simp [h]
  · rw [if_neg h, if_neg h]
    exact alookup_filter_ne l k key (fun hk => h hk.symm)

theorem alookup_aerase {κ α : Type} [DecidableEq κ] (l : List (κ × α))
    (k key : κ) :
    alookup (aerase l k) key = if key = k then none else alookup l key := by
  unfold aerase
  by_cases h : key = k
  · subst h
    rw [if_pos rfl]
    exact alookup_filter_self l key
  · rw [if_neg h]
    exact alookup_filter_ne l k key h

theorem alookup_amodify {κ α : Type} [DecidableEq κ] (l : List (κ × α))
    (k : κ) (f : α → α) (key : κ) :
    alookup (amodify l k f) key =
      if key = k then (alookup l key).map f else alookup l key := by
  induction l with
  | nil => simp [amodify, alookup]
  | cons a t ih =>
    rcases a with ⟨a1, a2⟩
    unfold amodify at ih ⊢
    by_cases hk : a1 = key
    · subst hk
      by_cases ha : a1 = k
      · subst ha
        simp [alookup_cons, ih]
      · simp [alookup_cons, ha, ih]
    · by_cases ha : a1 = k
      · subst ha
        simp [alookup_cons, hk, ih]
      · simp [alookup_cons, ha, hk, ih]

theorem alookup_mem {κ α : Type} [DecidableEq κ] (l : List (κ × α)) (k : κ)
    (v : α) (h : alookup l k = some v) : (k, v) ∈ l := by
  induction l with
  | nil => simp [alookup] at h
  | cons a t ih =>
    rcases a with ⟨a1, a2⟩
    rw [alookup_cons] at h
    by_cases ha : a1 = k
    · rw [if_pos ha] at h
      cases h
      subst ha
      exact List.mem_cons_self _ _
    · rw [if_neg ha] at h
      exact List.mem_cons_of_mem _ (ih h)

/-! ## C7: article id derivation (confirmed) -/

/-- C7: the article id produced by Article::new is the parsed GUID when one
is present and "{feed_name}:{hex(blake3(link))}" otherwise; two articles
with no GUID, the same link and the same feed name receive identical ids. -/
theorem C7_article_id (bh : String → String) (p p2 : ParsedArticle)
    (feed : String) (now now2 : Nat) :
    (∀ g, p.guid = some g → (Article.new bh p feed now).id = g) ∧
    (p.guid = none → (Article.new bh p feed now).id = feed ++ ":" ++ bh p.link) ∧
    (p.guid = none → p2.guid = none → p2.link = p.link →
      (Article.new bh p2 feed now2).id = (Article.new bh p feed now).id) := by
  refine ⟨?_, ?_, ?_⟩
  · intro g hg
    simp [Article.new, hg]
  · intro hg
    simp [Article.new, hg]
  · intro h1 h2 h3
    simp [Article.new, h1, h2, h3]

/-- C7 witness: a GUID-less parsed article gets the feed-qualified hash id. -/
theorem C7_article_id_witness :
    parsedNoGuid.guid = none ∧
    (Article.new (fun _ => "H") parsedNoGuid "f" 0).id =
      "f" ++ ":" ++ (fun _ => "H") parsedNoGuid.link :=
  ⟨rfl, (C7_article_id (fun _ => "H") parsedNoGuid parsedNoGuid "f" 0 0).2.1 rfl⟩

/-! ## C8: configuration defaults (corrected: 300 and 3600, not 3600 and 14400) -/

/-- C8 counterexample: the source defaults refresh_interval to 300 seconds
and cache_duration to 3600 seconds, so the claimed 3600/14400 defaults are
false. -/
theorem C8_defaults_counterexample :
    ¬ ((Settings.default "0.1.0").refresh_interval = 3600 ∧
       (Settings.default "0.1.0").cache_duration = 14400 ∧
       (Settings.default "0.1.0").max_articles = 100 ∧
       (Settings.default "0.1.0").article_content = true ∧
       (Settings.default "0.1.0").timeout = 30 ∧
       (Settings.default "0.1.0").retry_attempts = 3 ∧
       (Settings.default "0.1.0").concurrent_fetches = 5) := by
  decide

/-- C8 amended: the defaults are refresh_interval = 300, cache_duration =
3600, max_articles = 100, article_content = true, timeout = 30,
retry_attempts = 3, concurrent_fetches = 5. -/
theorem C8_defaults (ver : String) :
    (Settings.default ver).refresh_interval = 300 ∧
    (Settings.default ver).cache_duration = 3600 ∧
    (Settings.default ver).max_articles = 100 ∧
    (Settings.default ver).article_content = true ∧
    (Settings.default ver).timeout = 30 ∧
    (Settings.default ver).retry_attempts = 3 ∧
    (Settings.default ver).concurrent_fetches = 5 :=
  ⟨rfl, rfl, rfl, rfl, rfl, rfl, rfl⟩

/-! ## C4: persistent cache load (corrected: the version is never checked) -/

/-- C4 counterexample: a fresh snapshot carrying unknown cache version 99
still loads, so "returns None ... when the snapshot carries an unknown
cache version" is false. -/
theorem C4_load_version_counterexample :
    d99.cache_version ≠ 1 ∧ PersistentCache.load 7 1000 (some d99) ≠ none := by
  decide

/-- C4 amended: load returns None exactly when the file is absent or the
wrapping u64 age of the snapshot exceeds max_age_days in seconds — which
covers both a snapshot older than max_age_days and a future-dated snapshot,
whose age wraps past the bound — while the version field is never checked;
any returned snapshot is the stored one with every entry not expiring
strictly after now filtered out, so no surviving entry expires in the
past. -/
theorem C4_load_characterization (mad now : Nat)
    (file : Option PersistentCacheData) :
    (PersistentCache.load mad now file = none ↔
      file = none ∨ ∃ d, file = some d ∧
        u64sub now d.saved_at > (mad * 24 * 60 * 60) % 2 ^ 64) ∧
    (∀ d d2, file = some d → PersistentCache.load mad now file = some d2 →
      d2.feeds = d.feeds.filter (fun kv => kv.2.expires_at > now) ∧
      d2.articles = d.articles.filter (fun kv => kv.2.expires_at > now) ∧
      (∀ kv ∈ d2.feeds, ¬ kv.2.expires_at < now) ∧
      (∀ kv ∈ d2.articles, ¬ kv.2.expires_at < now)) := by
  cases file with
  | none =>
    refine ⟨by simp [PersistentCache.load], ?_⟩
    intro d d2 hd
    exact absurd hd (by simp)
  | some d =>
    by_cases hage : u64sub now d.saved_at > (mad * 24 * 60 * 60) % 2 ^ 64
    · refine ⟨?_, ?_⟩
      · simp only [PersistentCache.load, if_pos hage]
        constructor
        · intro _
          exact Or.inr ⟨d, rfl, by omega⟩
        · intro _
          trivial
      · intro d1 d2 hd hload
        simp only [PersistentCache.load, if_pos hage] at hload
        exact absurd hload (by simp)
    · refine ⟨?_, ?_⟩
      · simp only [PersistentCache.load, if_neg hage]
        simp only [Option.some_ne_none, false_iff]  -- placeholder, adjusted below
        push_neg
        refine ⟨by simp, ?_⟩
        intro d2 hd2
        cases hd2
        omega
      · intro d1 d2 hd hload
        cases hd
        simp only [PersistentCache.load, if_neg hage, Option.some.injEq] at hload
        subst hload
        refine ⟨rfl, rfl, ?_, ?_⟩
        · intro kv hkv
          have := (List.mem_filter.mp hkv).2
          simp only [decide_eq_true_eq] at this
          omega
        · intro kv hkv
          have := (List.mem_filter.mp hkv).2
          simp only [decide_eq_true_eq] at this
          omega

/-- C4 witness: the characterization instantiated at the present snapshot
d99 (saved_at 1000, read at 1000: it loads and its entries are filtered),
alongside the concrete rejection of the future-dated snapshot dFut. -/
theorem C4_load_characterization_witness :
    PersistentCache.load 7 1000 (some dFut) = none ∧ 1000 < dFut.saved_at ∧
    ((PersistentCache.load 7 1000 (some d99) = none ↔
      (some d99 : Option PersistentCacheData) = none ∨
      ∃ d, (some d99 : Option PersistentCacheData) = some d ∧
        u64sub 1000 d.saved_at > (7 * 24 * 60 * 60) % 2 ^ 64) ∧
    (∀ d d2, (some d99 : Option PersistentCacheData) = some d →
      PersistentCache.load 7 1000 (some d99) = some d2 →
      d2.feeds = d.feeds.filter (fun kv => kv.2.expires_at > 1000) ∧
      d2.articles = d.articles.filter (fun kv => kv.2.expires_at > 1000) ∧
      (∀ kv ∈ d2.feeds, ¬ kv.2.expires_at < 1000) ∧
      (∀ kv ∈ d2.articles, ¬ kv.2.expires_at < 1000))) :=
  ⟨by decide, by decide, C4_load_characterization 7 1000 (some d99)⟩

/-! ## C5: persistent cache round-trip (corrected: strict-future expiry needed) -/

/-- C5 counterexample: an entry whose expiry instant equals now is not
expired (is_expired is a strict comparison), yet save-then-load drops it,
so the round-trip identity fails for an unexpired set. -/
theorem C5_roundtrip_counterexample :
    ceBoundary.is_expired 100 = false ∧
    (PersistentCache.save 100 [("f", ceBoundary)] []).feeds.length = 1 ∧
    (PersistentCache.load 7 100
        (some (PersistentCache.save 100 [("f", ceBoundary)] []))).map
      PersistentCacheData.feeds = some [] := by
  exact ⟨rfl, rfl, rfl⟩

theorem filter_not_expired_eq {α : Type} (now : Nat)
    (l : List (String × CacheEntry α)) (h : ∀ kv ∈ l, now < kv.2.expires_at) :
    l.filter (fun kv => ¬ kv.2.is_expired now) = l := by
  rw [List.filter_eq_self]
  intro a ha
  have := h a ha
  simp [CacheEntry.is_expired]
  omega

theorem filter_ser_fresh {α : Type} (now : Nat)
    (l : List (String × CacheEntry α)) (h : ∀ kv ∈ l, now < kv.2.expires_at) :
    (l.map (fun kv => (kv.1, toSerializable kv.2))).filter
        (fun kv => kv.2.expires_at > now) =
      l.map (fun kv => (kv.1, toSerializable kv.2)) := by
  rw [List.filter_eq_self]
  intro a ha
  simp only [List.mem_map] at ha
  obtain ⟨b, hb, rfl⟩ := ha
  have := h b hb
  simp [toSerializable]
  omega

theorem map_ser_roundtrip {α : Type} (l : List (String × CacheEntry α)) :
    (l.map (fun kv => (kv.1, toSerializable kv.2))).map
      (fun kv => (kv.1, ofSerializable kv.2)) = l := by
  induction l with
  | nil => rfl
  | cons a t ih =>
    rcases a with ⟨a1, a2⟩
    rw [List.map_cons, List.map_cons, ih]
    rfl

/-- C5 amended: when every entry of S expires strictly after now (in the
serialized seconds granularity), save followed by load at the same instant
returns exactly the snapshot of S, and the serialization is lossless, so
the loaded snapshot deserializes back to exactly the entries of S.
Entries whose expiry second equals now are saved but dropped by load. -/
theorem C5_save_load_roundtrip (mad now : Nat)
    (feeds : List (String × CacheEntry Feed))
    (articles : List (String × CacheEntry Article))
    (hf : ∀ kv ∈ feeds, now < kv.2.expires_at)
    (ha : ∀ kv ∈ articles, now < kv.2.expires_at) :
    PersistentCache.load mad now (some (PersistentCache.save now feeds articles)) =
      some { feeds := feeds.map (fun kv => (kv.1, toSerializable kv.2))
             articles := articles.map (fun kv => (kv.1, toSerializable kv.2))
             cache_version := 1
             saved_at := now } ∧
    ((feeds.map (fun kv => (kv.1, toSerializable kv.2))).map
        (fun kv => (kv.1, ofSerializable kv.2)) = feeds ∧
     (articles.map (fun kv => (kv.1, toSerializable kv.2))).map
        (fun kv => (kv.1, ofSerializable kv.2)) = articles) := by
  refine ⟨?_, map_ser_roundtrip _, map_ser_roundtrip _⟩
  have h0 : u64sub now now = 0 := by
    unfold u64sub
    omega
  have hage : ¬ (u64sub now now > (mad * 24 * 60 * 60) % 2 ^ 64) := by omega
  simp only [PersistentCache.save, PersistentCache.load,
    filter_not_expired_eq now feeds hf, filter_not_expired_eq now articles ha,
    if_neg hage]
  rw [filter_ser_fresh now feeds hf, filter_ser_fresh now articles ha]

/-- C5 witness: the round-trip at a one-feed, one-article snapshot whose
entries expire at second 200, loaded at second 100. -/
theorem C5_save_load_roundtrip_witness :
    PersistentCache.load 7 100
        (some (PersistentCache.save 100 [("f", ⟨feedF, 0, 200, 0, 0⟩)]
          [("a", ⟨artA, 0, 200, 0, 0⟩)])) =
      some { feeds := [("f", toSerializable ⟨feedF, 0, 200, 0, 0⟩)]
             articles := [("a", toSerializable ⟨artA, 0, 200, 0, 0⟩)]
             cache_version := 1
             saved_at := 100 } ∧
    (([("f", (⟨feedF, 0, 200, 0, 0⟩ : CacheEntry Feed))].map
        (fun kv => (kv.1, toSerializable kv.2))).map
        (fun kv => (kv.1, ofSerializable kv.2)) =
          [("f", (⟨feedF, 0, 200, 0, 0⟩ : CacheEntry Feed))] ∧
     ([("a", (⟨artA, 0, 200, 0, 0⟩ : CacheEntry Article))].map
        (fun kv => (kv.1, toSerializable kv.2))).map
        (fun kv => (kv.1, ofSerializable kv.2)) =
          [("a", (⟨artA, 0, 200, 0, 0⟩ : CacheEntry Article))]) :=
  C5_save_load_roundtrip 7 100 [("f", ⟨feedF, 0, 200, 0, 0⟩)]
    [("a", ⟨artA, 0, 200, 0, 0⟩)] (by decide) (by decide)

/-! ## C9: background refresh error handling (corrected: a storage-write
failure still returns Ok(None) but the in-memory cache has already been
overwritten with the fresh feed) -/

/-- C9 counterexample: with a successful fetch and a failing storage write
the call returns Ok(None), yet the feed cache no longer holds its previous
content, so "leaving previously cached content in place" fails. -/
theorem C9_background_counterexample :
    (refresh_feed_background (fun _ => "") 0 (.ok parsedFeed0) false "f" "u"
      repoEmpty).1 = .ok none ∧
    (refresh_feed_background (fun _ => "") 0 (.ok parsedFeed0) false "f" "u"
      repoEmpty).2.cacheFeeds ≠ repoEmpty.cacheFeeds := by
  refine ⟨rfl, ?_⟩
  decide

/-- C9 amended: refresh_feed_background never returns an error: a
successful refresh yields Ok(Some(feed)); a fetch error yields Ok(None)
with the repository state untouched; a fetch success followed by a storage
write failure yields Ok(None) with storage untouched but the feed cache
already overwritten by the fresh feed. -/
theorem C9_background_never_errors (bh : String → String) (now : Nat)
    (fetched : Except String ParsedFeed) (storeOk : Bool)
    (name url : String) (s : RepoState) :
    (∃ o, (refresh_feed_background bh now fetched storeOk name url s).1 = .ok o) ∧
    (∀ e, fetched = .error e →
      refresh_feed_background bh now fetched storeOk name url s = (.ok none, s)) ∧
    (∀ pf, fetched = .ok pf → storeOk = true →
      (refresh_feed_background bh now fetched storeOk name url s).1 =
        .ok (some (builtFeed bh now pf name url))) ∧
    (∀ pf, fetched = .ok pf → storeOk = false →
      (refresh_feed_background bh now fetched storeOk name url s).1 = .ok none ∧
      (refresh_feed_background bh now fetched storeOk name url s).2.storageFeeds =
        s.storageFeeds ∧
      (refresh_feed_background bh now fetched storeOk name url s).2.cacheFeeds =
        ainsert s.cacheFeeds name (builtFeed bh now pf name url)) := by
  cases fetched with
  | error e =>
    refine ⟨⟨none, ?_⟩, ?_, ?_, ?_⟩
    · simp [refresh_feed_background, refresh_feed]
    · intro e2 _
      simp [refresh_feed_background, refresh_feed]
    · intro pf hpf
      exact absurd hpf (by simp)
    · intro pf hpf
      exact absurd hpf (by simp)
  | ok pf =>
    cases storeOk with
    | true =>
      refine ⟨⟨some (builtFeed bh now pf name url), ?_⟩, ?_, ?_, ?_⟩
      · simp [refresh_feed_background, refresh_feed,
          store_feed_in_cache_and_storage]
      · intro e he
        exact absurd he (by simp)
      · intro pf2 hpf _
        cases hpf
        simp [refresh_feed_background, refresh_feed,
          store_feed_in_cache_and_storage]
      · intro pf2 _ hs
        exact absurd hs (by simp)
    | false =>
      refine ⟨⟨none, ?_⟩, ?_, ?_, ?_⟩
      · simp [refresh_feed_background, refresh_feed,
          store_feed_in_cache_and_storage]
      · intro e he
        exact absurd he (by simp)
      · intro pf2 _ hs
        exact absurd hs (by simp)
      · intro pf2 hpf _
        cases hpf
        refine ⟨?_, ?_, ?_⟩ <;>
          simp [refresh_feed_background, refresh_feed,
            store_feed_in_cache_and_storage, builtFeed]

/-- C9 witness: the characterization at a concrete failing fetch. -/
theorem C9_background_never_errors_witness :
    refresh_feed_background (fun _ => "") 0 (.error "net") true "f" "u"
      repoEmpty = (.ok none, repoEmpty) :=
  (C9_background_never_errors (fun _ => "") 0 (.error "net") true "f" "u"
    repoEmpty).2.1 "net" rfl

/-! ## C6: filename sanitization (corrected: lengths are UTF-8 bytes) -/

theorem sanitizeChar_legal (c : Char) :
    isIllegalChar (sanitizeChar c) = false ∧
    isControlChar (sanitizeChar c) = false := by
  unfold sanitizeChar
  by_cases h : (isIllegalChar c || isControlChar c) = true
  · rw [if_pos h]
    exact ⟨by decide, by decide⟩
  · rw [if_neg h]
    simp only [Bool.or_eq_true, not_or, Bool.not_eq_true] at h
    exact ⟨h.1, h.2⟩

theorem utf8Len_cons (c : Char) (l : List Char) :
    utf8Len (c :: l) = c.utf8Size + utf8Len l := by
  simp [utf8Len]

theorem utf8Len_append (a b : List Char) :
    utf8Len (a ++ b) = utf8Len a + utf8Len b := by
  simp [utf8Len]

theorem takeBytes_mem : ∀ (l : List Char) (n : Nat) (p : List Char),
    takeBytes n l = some p → ∀ c ∈ p, c ∈ l := by
  intro l
  induction l with
  | nil =>
    intro n p h c hc
    unfold takeBytes at h
    by_cases hn : n = 0
    · rw [if_pos hn, Option.some.injEq] at h
      subst h
      simp at hc
    · rw [if_neg hn] at h
      exact absurd h (by simp)
  | cons d t ih =>
    intro n p h c hc
    unfold takeBytes at h
    by_cases hn : n = 0
    · rw [if_pos hn, Option.some.injEq] at h
      subst h
      simp at hc
    · rw [if_neg hn] at h
      by_cases hsz : d.utf8Size ≤ n
      · rw [if_pos hsz, Option.map_eq_some'] at h
        obtain ⟨p2, hp2, hp⟩ := h
        subst hp
        rcases List.mem_cons.mp hc with hc1 | hc2
        · exact hc1 ▸ List.mem_cons_self _ _
        · exact List.mem_cons_of_mem _ (ih _ _ hp2 c hc2)
      · rw [if_neg hsz] at h
        exact absurd h (by simp)

theorem takeBytes_len : ∀ (l : List Char) (n : Nat) (p : List Char),
    takeBytes n l = some p → utf8Len p = n := by
  intro l
  induction l with
  | nil =>
    intro n p h
    unfold takeBytes at h
    by_cases hn : n = 0
    · rw [if_pos hn, Option.some.injEq] at h
      subst h
      rw [hn]
      rfl
    · rw [if_neg hn] at h
      exact absurd h (by simp)
  | cons d t ih =>
    intro n p h
    unfold takeBytes at h
    by_cases hn : n = 0
    · rw [if_pos hn, Option.some.injEq] at h
      subst h
      rw [hn]
      rfl
    · rw [if_neg hn] at h
      by_cases hsz : d.utf8Size ≤ n
      · rw [if_pos hsz, Option.map_eq_some'] at h
        obtain ⟨p2, hp2, hp⟩ := h
        subst hp
        rw [utf8Len_cons, ih _ _ hp2]
        omega
      · rw [if_neg hsz] at h
        exact absurd h (by simp)

/-- C6 counterexample: a title of 99 characters but 103 UTF-8 bytes.  The
claim (counting characters) requires no truncation, yet the source
truncates because title.len() counts bytes, so the produced filename
differs from the claimed one. -/
theorem C6_filename_counterexample :
    title95.length ≤ 100 ∧
    markdownFilenameChars title95 ≠ some (specFilenameChars title95) := by
  refine ⟨by decide, ?_⟩
  decide

/-- C6 amended: markdown_filename replaces every illegal or control
character with a dash; the truncation threshold and cut are measured in
UTF-8 bytes (exceeding 100 bytes truncates to the first 97 bytes, a panic
when byte 97 is not a character boundary) before "..." and ".md" are
appended; every filename the function returns is free of illegal and
control characters and at most 107 bytes (in fact 103) long. -/
theorem C6_filename_sanitized_bounded (title out : List Char)
    (h : markdownFilenameChars title = some out) :
    (∀ c ∈ out, isIllegalChar c = false ∧ isControlChar c = false) ∧
    utf8Len out ≤ 107 := by
  have hdots : ∀ c ∈ "...".data ++ ".md".data,
      isIllegalChar c = false ∧ isControlChar c = false := by decide
  have hsan : ∀ c ∈ title.map sanitizeChar,
      isIllegalChar c = false ∧ isControlChar c = false := by
    intro c hc
    obtain ⟨x, _, hx⟩ := List.mem_map.mp hc
    exact hx ▸ sanitizeChar_legal x
  simp only [markdownFilenameChars] at h
  by_cases hlen : utf8Len (title.map sanitizeChar) > 100
  · rw [if_pos hlen, Option.map_eq_some'] at h
    obtain ⟨p, hp, hout⟩ := h
    subst hout
    constructor
    · intro c hc
      rcases List.mem_append.mp ((List.append_assoc _ _ _) ▸ hc) with hc1 | hc2
      · exact hsan c (takeBytes_mem _ _ _ hp c hc1)
      · exact hdots c hc2
    · rw [utf8Len_append, utf8Len_append, takeBytes_len _ _ _ hp]
      decide
  · rw [if_neg hlen, Option.some.injEq] at h
    subst h
    constructor
    · intro c hc
      rcases List.mem_append.mp hc with hc1 | hc2
      · exact hsan c hc1
      · exact hdots c (List.mem_append.mpr (Or.inr hc2))
    · rw [utf8Len_append]
      have h3 : utf8Len (String.data ".md") = 3 := by decide
      have h4 : utf8Len (String.data ".md") = utf8Len ['.', 'm', 'd'] := rfl
      omega

/-- C6 witness: the filename of the one-character title "A". -/
theorem C6_filename_sanitized_bounded_witness :
    (∀ c ∈ ('A' :: ".md".data),
      isIllegalChar c = false ∧ isControlChar c = false) ∧
    utf8Len ('A' :: ".md".data) ≤ 107 :=
  C6_filename_sanitized_bounded "A".data ('A' :: ".md".data) (by decide)

/-! ## C3: readdir (corrected: the dot entry carries ino 1, not the
directory's own ino) -/

theorem readdirLoop_eq (cap : Nat) :
    ∀ (l : List (Nat × (Nat × FileType × String))) (acc : List DirEntry),
    readdirLoop cap acc l =
      acc ++ (l.take (cap - acc.length)).map
        (fun e => DirEntry.mk e.2.1 (e.1 + 1) e.2.2.1 e.2.2.2) := by
  intro l
  induction l with
  | nil =>
    intro acc
    simp [readdirLoop]
  | cons e rest ih =>
    intro acc
    rcases e with ⟨i, ino, ft, nm⟩
    unfold readdirLoop
    by_cases hfull : cap ≤ acc.length
    · rw [if_pos hfull]
      have h0 : cap - acc.length = 0 := by omega
      simp [h0]
    · rw [if_neg hfull]
      rw [ih]
      have hlen : (acc ++ [DirEntry.mk ino (i + 1) ft nm]).length = acc.length + 1 := by
        simp
      rw [hlen]
      have hc : cap - acc.length = (cap - (acc.length + 1)) + 1 := by omega
      rw [hc, List.take_succ_cons, List.map_cons, List.append_assoc,
        List.singleton_append]

/-- C3 counterexample: in a tree whose feed directory "f" sits at ino 2,
readdir at ino 2 replies first with the entry (".", ino 1): the claimed
"(\".\", ino = the directory itself)" is false for every non-root
directory. -/
theorem C3_readdir_counterexample :
    (mFeedDir.get_node 2).map VNode.ino = some 2 ∧
    fs_readdir mFeedDir 2 0 10 =
      .ok [DirEntry.mk 1 1 .directory ".", DirEntry.mk 1 2 .directory ".."] ∧
    (1 : Nat) ≠ 2 := by
  refine ⟨rfl, rfl, by decide⟩

/-- C3 amended: readdir replies ENOENT for a missing inode, ENOTDIR for a
non-directory inode, and otherwise serves the entry list (".", ino 1),
("..", ino = parent), then the children in insertion order, each carrying
the next absolute offset as its cookie, with the first `offset` entries
skipped and at most `cap` entries filling the reply buffer. -/
theorem C3_readdir_characterization (m : InodeManager) (ino offset cap : Nat) :
    (fs_readdir m ino offset cap = .error .enoent ↔ m.get_node ino = none) ∧
    (∀ node, m.get_node ino = some node →
      (node.is_directory = false → fs_readdir m ino offset cap = .error .enotdir) ∧
      (node.is_directory = true →
        fs_readdir m ino offset cap = .ok
          ((((readdirSpecEntries m node ino).enum.map
              (fun e => DirEntry.mk e.2.1 (e.1 + 1) e.2.2.1 e.2.2.2)).drop
                offset).take cap))) := by
  constructor
  · cases hg : m.get_node ino with
    | none => simp [fs_readdir, hg]
    | some node =>
      simp only [fs_readdir, hg]
      by_cases hdir : node.is_directory
      · simp [hdir]
      · simp [hdir]
  · intro node hg
    constructor
    · intro hdir
      simp [fs_readdir, hg, hdir]
    · intro hdir
      simp only [fs_readdir, hg, hdir, Bool.true_eq_false, not_true_eq_false,
        if_false, ite_false, Bool.not_true, reduceIte]
      rw [readdirLoop_eq]
      simp only [List.nil_append, List.length_nil, Nat.sub_zero,
        readdirSpecEntries]
      rw [List.map_take, List.map_drop]

/-- C3 witness: the characterization at the root of a fresh tree. -/
theorem C3_readdir_characterization_witness :
    (fs_readdir (InodeManager.new ext0) 1 0 10 = .error .enoent ↔
      (InodeManager.new ext0).get_node 1 = none) ∧
    (∀ node, (InodeManager.new ext0).get_node 1 = some node →
      (node.is_directory = false →
        fs_readdir (InodeManager.new ext0) 1 0 10 = .error .enotdir) ∧
      (node.is_directory = true →
        fs_readdir (InodeManager.new ext0) 1 0 10 = .ok
          ((((readdirSpecEntries (InodeManager.new ext0) node 1).enum.map
              (fun e => DirEntry.mk e.2.1 (e.1 + 1) e.2.2.1 e.2.2.2)).drop
                0).take 10))) :=
  C3_readdir_characterization (InodeManager.new ext0) 1 0 10

/-! ## Characterizations of the primitive tree operations -/

theorem create_node_ok (ext : Externals) (m : InodeManager) (p : Nat)
    (nm : String) (t : NodeType) (ino : Nat) (m2 : InodeManager)
    (h : m.create_node ext p nm t = .ok (ino, m2)) :
    ino = m.next_ino ∧ m2 = createdState ext m p nm t ∧
      ∃ par, m.get_node p = some par ∧ par.is_directory = true ∧
        m.get_node_by_name p nm = none := by
  unfold InodeManager.create_node at h
  cases hp : m.get_node p with
  | none => simp [hp] at h
  | some par =>
    simp only [hp] at h
    by_cases h1 : par.is_directory = true
    · simp only [h1, not_true_eq_false, if_false, reduceIte] at h
      by_cases h2 : (m.get_node_by_name p nm).isSome = true
      · simp [h2] at h
      · rw [if_neg h2] at h
        simp only [Except.ok.injEq, Prod.mk.injEq] at h
        refine ⟨h.1.symm, h.2.symm, par, rfl, h1, ?_⟩
        exact Option.not_isSome_iff_eq_none.mp h2
    · simp [h1] at h

theorem create_node_succeeds (ext : Externals) (m : InodeManager) (p : Nat)
    (nm : String) (t : NodeType) (par : VNode)
    (hp : m.get_node p = some par) (hdir : par.is_directory = true)
    (hname : m.get_node_by_name p nm = none) :
    m.create_node ext p nm t = .ok (m.next_ino, createdState ext m p nm t) := by
  unfold InodeManager.create_node
  simp [hp, hdir, hname, createdState]

theorem remove_node_ok (m : InodeManager) (ino : Nat) (m2 : InodeManager)
    (h : m.remove_node ino = .ok m2) :
    ino ≠ 1 ∧ ∃ node, m.get_node ino = some node ∧
      m2 = removedState m ino node := by
  unfold InodeManager.remove_node at h
  by_cases h1 : ino = 1
  · simp [h1] at h
  · simp only [h1, if_false, reduceIte] at h
    cases hg : m.get_node ino with
    | none => simp [hg] at h
    | some node =>
      simp only [hg, Except.ok.injEq] at h
      exact ⟨h1, node, rfl, h.symm⟩

theorem remove_node_succeeds (m : InodeManager) (ino : Nat) (node : VNode)
    (h1 : ino ≠ 1) (hg : m.get_node ino = some node) :
    m.remove_node ino = .ok (removedState m ino node) := by
  unfold InodeManager.remove_node
  simp [h1, hg, removedState]

/-! ## C10: article reads never fail (confirmed) -/

theorem add_child_node_type (v : VNode) (c : Nat) :
    (v.add_child c).node_type = v.node_type := by
  unfold VNode.add_child
  split <;> rfl

theorem add_child_size (v : VNode) (c : Nat) :
    (v.add_child c).size = v.size := by
  unfold VNode.add_child
  split <;> rfl

theorem add_child_file_type (v : VNode) (c : Nat) :
    (v.add_child c).file_type = v.file_type := by
  unfold VNode.add_child
  split <;> rfl

theorem add_child_parent_name (v : VNode) (c : Nat) :
    (v.add_child c).parent_ino = v.parent_ino ∧ (v.add_child c).name = v.name := by
  unfold VNode.add_child
  split <;> exact ⟨rfl, rfl⟩

/-- C10: after create_node succeeds for an ArticleFile, the node's size is
the byte length of the very content get_article_content serves, every read
of the file succeeds with the corresponding slice of that content, on a
markdown rendering failure the content is the deterministic to_text
rendering, and an article with neither content nor description is exactly
such a failure. -/
theorem C10_article_read_total (ext : Externals) (m : InodeManager)
    (parent : Nat) (nm feed : String) (a : Article) (ino : Nat)
    (m2 : InodeManager)
    (h : m.create_node ext parent nm (.articleFile feed a) = .ok (ino, m2)) :
    ∃ node, m2.get_node ino = some node ∧
      node.node_type = .articleFile feed a ∧
      ∃ c, m2.get_article_content ext ino = some c ∧
        node.size = c.utf8ByteSize ∧
        (∀ cfg off sz, fs_read ext m2 cfg ino off sz = .ok (readSlice c off sz)) ∧
        (Article.to_markdown ext a feed = none → c = a.to_text ext) ∧
        (a.content = none → a.description = none →
          Article.to_markdown ext a feed = none) := by
  obtain ⟨hino, hm2, par, hp, hdir, hname⟩ := create_node_ok ext m parent nm _ ino m2 h
  subst hino
  subst hm2
  set nn := VNode.new ext m.next_ino parent nm (.articleFile feed a) with hnn
  set node := if m.next_ino = parent then nn.add_child m.next_ino else nn with hnode
  have hget : (createdState ext m parent nm (.articleFile feed a)).get_node
      m.next_ino = some node := by
    unfold InodeManager.get_node createdState
    rw [alookup_amodify]
    unfold node
    by_cases hip : m.next_ino = parent
    · rw [if_pos hip, if_pos hip, alookup_ainsert, if_pos rfl]
      rfl
    · rw [if_neg hip, if_neg hip, alookup_ainsert, if_pos rfl]
  have hty : node.node_type = .articleFile feed a := by
    unfold node
    split
    · rw [add_child_node_type]
      rfl
    · rfl
  have hsz : node.size = (renderedContent ext feed a).utf8ByteSize := by
    unfold node
    split
    · rw [add_child_size]
      rfl
    · rfl
  have hft : node.file_type = .regularFile := by
    unfold node
    split
    · rw [add_child_file_type]
      rfl
    · rfl
  have hdirf : node.is_directory = false := by
    simp [VNode.is_directory, hft]
  refine ⟨node, hget, hty, renderedContent ext feed a, ?_, hsz, ?_, ?_, ?_⟩
  · simp only [InodeManager.get_article_content, hget, hty]
  · intro cfg off sz
    simp only [fs_read, hget, hdirf, Bool.false_eq_true, if_false, hty,
      reduceIte, InodeManager.get_article_content]
  · intro hmd
    unfold renderedContent
    rw [hmd]
    rfl
  · intro hc hd
    unfold Article.to_markdown extract_article extract_content
    rw [hc, hd]
    rfl

/-- C10 witness: the totality facts at a concrete article file created in a
fresh tree. -/
theorem C10_article_read_total_witness :
    ∃ node, (w10.2).get_node w10.1 = some node ∧
      node.node_type = .articleFile "f" artA ∧
      ∃ c, (w10.2).get_article_content ext0 w10.1 = some c ∧
        node.size = c.utf8ByteSize ∧
        (∀ cfg off sz,
          fs_read ext0 w10.2 cfg w10.1 off sz = .ok (readSlice c off sz)) ∧
        (Article.to_markdown ext0 artA "f" = none → c = artA.to_text ext0) ∧
        (artA.content = none → artA.description = none →
          Article.to_markdown ext0 artA "f" = none) :=
  C10_article_read_total ext0 (InodeManager.new ext0) 1 "a.md" "f" artA
    w10.1 w10.2 rfl

/-! ## C2: the structural invariant (corrected: it survives leaf-only
removals; removing a directory that still has children breaks it) -/

theorem mem_ainsert_iff {κ α : Type} [DecidableEq κ] (l : List (κ × α))
    (k : κ) (v : α) (p : κ × α) :
    p ∈ ainsert l k v ↔ p = (k, v) ∨ (p ∈ l ∧ p.1 ≠ k) := by
  unfold ainsert
  simp only [List.mem_cons, List.mem_filter, decide_not, Bool.not_eq_eq_eq_not,
    Bool.not_true, decide_eq_false_iff_not]

theorem mem_aerase_iff {κ α : Type} [DecidableEq κ] (l : List (κ × α))
    (k : κ) (p : κ × α) :
    p ∈ aerase l k ↔ p ∈ l ∧ p.1 ≠ k := by
  unfold aerase
  simp only [List.mem_filter, decide_not, Bool.not_eq_eq_eq_not,
    Bool.not_true, decide_eq_false_iff_not]

theorem mem_amodify {κ α : Type} [DecidableEq κ] (l : List (κ × α))
    (k : κ) (f : α → α) (p : κ × α) (h : p ∈ amodify l k f) :
    ∃ q ∈ l, p = if q.1 = k then (q.1, f q.2) else q := by
  unfold amodify at h
  obtain ⟨q, hq, hpq⟩ := List.mem_map.mp h
  exact ⟨q, hq, hpq.symm⟩

theorem alookup_isSome_of_mem {κ α : Type} [DecidableEq κ] (l : List (κ × α))
    (p : κ × α) (h : p ∈ l) : (alookup l p.1).isSome = true := by
  induction l with
  | nil => simp at h
  | cons a t ih =>
    rcases a with ⟨a1, a2⟩
    rw [alookup_cons]
    by_cases ha : a1 = p.1
    · rw [if_pos ha]
      rfl
    · rw [if_neg ha]
      rcases List.mem_cons.mp h with h1 | h2
      · exact absurd (congrArg Prod.fst h1.symm) ha
      · exact ih h2

theorem filter_ne_eq_self {κ α : Type} [DecidableEq κ] (l : List (κ × α))
    (k : κ) (h : ∀ p ∈ l, p.1 ≠ k) :
    l.filter (fun p => p.1 ≠ k) = l := by
  rw [List.filter_eq_self]
  intro a ha
  simp [h a ha]

theorem add_child_ino (v : VNode) (c : Nat) : (v.add_child c).ino = v.ino := by
  unfold VNode.add_child
  split <;> rfl

theorem remove_child_ino (v : VNode) (c : Nat) :
    (v.remove_child c).ino = v.ino := rfl

theorem remove_child_parent_name (v : VNode) (c : Nat) :
    (v.remove_child c).parent_ino = v.parent_ino ∧
    (v.remove_child c).name = v.name := ⟨rfl, rfl⟩

theorem remove_child_file_type (v : VNode) (c : Nat) :
    (v.remove_child c).file_type = v.file_type := rfl

theorem mem_add_child_children (v : VNode) (x c : Nat)
    (h : c ∈ (v.add_child x).children) : c ∈ v.children ∨ c = x := by
  unfold VNode.add_child at h
  split at h
  · exact Or.inl h
  · rcases List.mem_append.mp h with h1 | h2
    · exact Or.inl h1
    · exact Or.inr (List.mem_singleton.mp h2)

theorem add_child_count_self (v : VNode) (x : Nat) (hx : x ∉ v.children) :
    (v.add_child x).children.count x = 1 := by
  unfold VNode.add_child
  rw [if_neg (by simpa using hx)]
  simp [List.count_append, List.count_eq_zero.mpr hx]

theorem add_child_count_ne (v : VNode) (x y : Nat) (hy : y ≠ x) :
    (v.add_child x).children.count y = v.children.count y := by
  unfold VNode.add_child
  split
  · rfl
  · simp [List.count_append, List.count_singleton', hy]

theorem mem_remove_child_children (v : VNode) (x c : Nat)
    (h : c ∈ (v.remove_child x).children) : c ∈ v.children ∧ c ≠ x := by
  unfold VNode.remove_child at h
  simp only [List.mem_filter, decide_not, Bool.not_eq_eq_eq_not,
    Bool.not_true, decide_eq_false_iff_not] at h
  exact h

theorem count_filter_ne (t : List Nat) (x y : Nat) (hy : y ≠ x) :
    (t.filter (fun i => i ≠ x)).count y = t.count y := by
  induction t with
  | nil => rfl
  | cons a t ih =>
    simp only [decide_not] at ih
    simp only [List.filter_cons, decide_not]
    by_cases ha : a = x
    · subst ha
      simp [List.count_cons, ih, fun h : y = a => hy h]
    · simp [ha, List.count_cons, ih]

theorem remove_child_count_ne (v : VNode) (x y : Nat) (hy : y ≠ x) :
    (v.remove_child x).children.count y = v.children.count y :=
  count_filter_ne v.children x y hy

/-- The strengthened tree invariant the preservation induction carries.
Its `main` field is the claim's invariant proper; the rest (key discipline,
freshness of the ino counter, index inversion, child back-pointers, a
directory root) is what makes the induction go through. -/
structure TreeINV (m : InodeManager) : Prop where
  rootMem : ∃ r, alookup m.nodes 1 = some r ∧ r.file_type = FileType.directory ∧
    r.parent_ino = 1
  keys : ∀ p ∈ m.nodes, (p : Nat × VNode).2.ino = p.1
  freshNodes : ∀ p ∈ m.nodes, (p : Nat × VNode).1 < m.next_ino
  freshChildren : ∀ p ∈ m.nodes, ∀ c ∈ (p : Nat × VNode).2.children, c < m.next_ino
  freshIdx : ∀ q ∈ m.name_to_ino,
    (q : (Nat × String) × Nat).1.1 < m.next_ino ∧ q.2 < m.next_ino
  main : ∀ p ∈ m.nodes, (p : Nat × VNode).1 ≠ 1 →
    ∃ par, alookup m.nodes p.2.parent_ino = some par ∧
      par.children.count p.2.ino = 1 ∧
      alookup m.name_to_ino (p.2.parent_ino, p.2.name) = some p.2.ino
  inverse : ∀ q ∈ m.name_to_ino,
    ∃ nd, alookup m.nodes (q : (Nat × String) × Nat).2 = some nd ∧
      nd.parent_ino = q.1.1 ∧ nd.name = q.1.2
  childBack : ∀ p ∈ m.nodes, ∀ c ∈ (p : Nat × VNode).2.children,
    ∃ nd, alookup m.nodes c = some nd ∧ nd.parent_ino = p.1

theorem TreeINV.toTreeInv {m : InodeManager} (h : TreeINV m) : treeInv m := by
  intro p hp
  exact ⟨h.keys p hp, h.main p hp⟩

theorem treeINV_new (ext : Externals) : TreeINV (InodeManager.new ext) := by
  refine ⟨⟨VNode.new ext 1 1 "/" .root, rfl, rfl, rfl⟩, ?_, ?_, ?_, ?_, ?_, ?_, ?_⟩
  · intro p hp
    rw [List.mem_singleton.mp hp]
    rfl
  · intro p hp
    rw [List.mem_singleton.mp hp]
    exact Nat.one_lt_two
  · intro p hp c hc
    rw [List.mem_singleton.mp hp] at hc
    exact absurd hc (List.not_mem_nil c)
  · intro q hq
    rw [List.mem_singleton.mp hq]
    exact ⟨Nat.one_lt_two, Nat.one_lt_two⟩
  · intro p hp hne
    rw [List.mem_singleton.mp hp] at hne
    exact absurd rfl hne
  · intro q hq
    rw [List.mem_singleton.mp hq]
    exact ⟨VNode.new ext 1 1 "/" .root, rfl, rfl, rfl⟩
  · intro p hp c hc
    rw [List.mem_singleton.mp hp] at hc
    exact absurd hc (List.not_mem_nil c)

theorem TreeINV.create (ext : Externals) (m : InodeManager) (p0 : Nat)
    (nm : String) (t : NodeType) (par : VNode) (hINV : TreeINV m)
    (hp : m.get_node p0 = some par) (hdir : par.is_directory = true)
    (hname : m.get_node_by_name p0 nm = none) :
    TreeINV (createdState ext m p0 nm t) := by
  have hpa : alookup m.nodes p0 = some par := hp
  have hp0mem : (p0, par) ∈ m.nodes := alookup_mem _ _ _ hpa
  have hp0lt : p0 < m.next_ino := hINV.freshNodes _ hp0mem
  have hfresh_notin : ∀ pr ∈ m.nodes, (pr : Nat × VNode).1 ≠ m.next_ino := by
    intro pr hpr
    have := hINV.freshNodes pr hpr
    omega
  have hnodes_eq : (createdState ext m p0 nm t).nodes =
      (m.next_ino, VNode.new ext m.next_ino p0 nm t) ::
        amodify m.nodes p0 (fun v => v.add_child m.next_ino) := by
    show amodify (ainsert m.nodes m.next_ino (VNode.new ext m.next_ino p0 nm t)) p0
        (fun v => v.add_child m.next_ino) = _
    unfold ainsert
    rw [filter_ne_eq_self m.nodes m.next_ino hfresh_notin]
    unfold amodify
    rw [List.map_cons]
    congr 1
    exact if_neg (by omega)
  have hlook : ∀ k, alookup (createdState ext m p0 nm t).nodes k =
      if m.next_ino = k then some (VNode.new ext m.next_ino p0 nm t)
      else if k = p0 then
        (alookup m.nodes k).map (fun v => v.add_child m.next_ino)
      else alookup m.nodes k := by
    intro k
    rw [hnodes_eq, alookup_cons, alookup_amodify]
  have hilook : ∀ q, alookup (createdState ext m p0 nm t).name_to_ino q =
      if (p0, nm) = q then some m.next_ino else alookup m.name_to_ino q := by
    intro q
    exact alookup_ainsert _ _ _ _
  have hmem : ∀ p : Nat × VNode, p ∈ (createdState ext m p0 nm t).nodes →
      p = (m.next_ino, VNode.new ext m.next_ino p0 nm t) ∨
      ∃ q ∈ m.nodes, p = if q.1 = p0 then (q.1, q.2.add_child m.next_ino) else q := by
    intro p hp2
    rw [hnodes_eq] at hp2
    rcases List.mem_cons.mp hp2 with h1 | h2
    · exact Or.inl h1
    · exact Or.inr (mem_amodify _ _ _ _ h2)
  constructor
  -- rootMem
  · obtain ⟨r, hr, hrd, hrp⟩ := hINV.rootMem
    have h1lt : (1 : Nat) < m.next_ino := hINV.freshNodes _ (alookup_mem _ _ _ hr)
    by_cases h1p : (1 : Nat) = p0
    · refine ⟨r.add_child m.next_ino, ?_, ?_, ?_⟩
      · rw [hlook 1, if_neg (by omega), if_pos h1p, hr]
        rfl
      · rw [add_child_file_type]
        exact hrd
      · rw [(add_child_parent_name _ _).1]
        exact hrp
    · refine ⟨r, ?_, hrd, hrp⟩
      rw [hlook 1, if_neg (by omega), if_neg h1p]
      exact hr
  -- keys
  · intro p hp2
    rcases hmem p hp2 with rfl | ⟨q, hq, rfl⟩
    · rfl
    · have hk := hINV.keys q hq
      split
      · show (q.2.add_child m.next_ino).ino = q.1
        rw [add_child_ino]
        exact hk
      · exact hk
  -- freshNodes
  · intro p hp2
    show (p : Nat × VNode).1 < m.next_ino + 1
    rcases hmem p hp2 with rfl | ⟨q, hq, rfl⟩
    · omega
    · have := hINV.freshNodes q hq
      split <;> omega
  -- freshChildren
  · intro p hp2 c hc
    show c < m.next_ino + 1
    rcases hmem p hp2 with rfl | ⟨q, hq, rfl⟩
    · exact absurd hc (List.not_mem_nil c)
    · have hold := hINV.freshChildren q hq
      revert hc
      split
      · intro hc
        rcases mem_add_child_children _ _ _ hc with h1 | rfl
        · have := hold c h1
          omega
        · omega
      · intro hc
        have := hold c hc
        omega
  -- freshIdx
  · intro q hq
    show (q : (Nat × String) × Nat).1.1 < m.next_ino + 1 ∧ q.2 < m.next_ino + 1
    rcases (mem_ainsert_iff _ _ _ q).mp hq with rfl | ⟨hq2, _⟩
    · exact ⟨show p0 < m.next_ino + 1 by omega,
        show m.next_ino < m.next_ino + 1 by omega⟩
    · have := hINV.freshIdx q hq2
      omega
  -- main
  · intro p hp2 hne
    rcases hmem p hp2 with rfl | ⟨q, hq, rfl⟩
    · refine ⟨par.add_child m.next_ino, ?_, ?_, ?_⟩
      · show alookup (createdState ext m p0 nm t).nodes p0 = _
        rw [hlook p0, if_neg (by omega), if_pos rfl, hpa]
        rfl
      · show (par.add_child m.next_ino).children.count m.next_ino = 1
        refine add_child_count_self par m.next_ino ?_
        intro hmem2
        have := hINV.freshChildren _ hp0mem m.next_ino hmem2
        omega
      · show alookup (createdState ext m p0 nm t).name_to_ino (p0, nm) = _
        rw [hilook (p0, nm), if_pos rfl]
        rfl
    · have hq1ne : q.1 ≠ 1 := by
        revert hne
        split <;> exact fun h => h
      obtain ⟨par0, hl0, hc0, hi0⟩ := hINV.main q hq hq1ne
      have hparlt : q.2.parent_ino < m.next_ino :=
        hINV.freshNodes _ (alookup_mem _ _ _ hl0)
      have hqlt : q.1 < m.next_ino := hINV.freshNodes q hq
      have hkq := hINV.keys q hq
      have hfields : (if q.1 = p0 then (q.1, q.2.add_child m.next_ino) else q).2.parent_ino
            = q.2.parent_ino ∧
          (if q.1 = p0 then (q.1, q.2.add_child m.next_ino) else q).2.name = q.2.name ∧
          (if q.1 = p0 then (q.1, q.2.add_child m.next_ino) else q).2.ino = q.2.ino := by
        split
        · exact ⟨(add_child_parent_name _ _).1, (add_child_parent_name _ _).2,
            add_child_ino _ _⟩
        · exact ⟨rfl, rfl, rfl⟩
      rw [hfields.1, hfields.2.1, hfields.2.2]
      have hidx_ne : (p0, nm) ≠ (q.2.parent_ino, q.2.name) := by
        intro hkey
        rw [← hkey] at hi0
        rw [hkq] at hi0
        unfold InodeManager.get_node_by_name at hname
        rw [hi0] at hname
        change alookup m.nodes q.1 = none at hname
        have hs := alookup_isSome_of_mem m.nodes q hq
        rw [Option.isSome_iff_exists] at hs
        obtain ⟨w, hw⟩ := hs
        rw [hw] at hname
        exact absurd hname (by simp)
      by_cases hpp : q.2.parent_ino = p0
      · refine ⟨par0.add_child m.next_ino, ?_, ?_, ?_⟩
        · rw [hlook q.2.parent_ino, if_neg (by omega), if_pos hpp, hl0]
          rfl
        · rw [add_child_count_ne par0 _ _ (by omega)]
          exact hc0
        · rw [hilook _, if_neg hidx_ne]
          exact hi0
      · refine ⟨par0, ?_, hc0, ?_⟩
        · rw [hlook q.2.parent_ino, if_neg (by omega), if_neg hpp]
          exact hl0
        · rw [hilook _, if_neg hidx_ne]
          exact hi0
  -- inverse
  · intro q hq
    rcases (mem_ainsert_iff _ _ _ q).mp hq with rfl | ⟨hq2, _⟩
    · refine ⟨VNode.new ext m.next_ino p0 nm t, ?_, rfl, rfl⟩
      rw [hlook m.next_ino, if_pos rfl]
    · obtain ⟨nd, hl, hparn, hnm⟩ := hINV.inverse q hq2
      have hq2lt : q.2 < m.next_ino := (hINV.freshIdx q hq2).2
      by_cases hqp : q.2 = p0
      · refine ⟨nd.add_child m.next_ino, ?_, ?_, ?_⟩
        · rw [hlook q.2, if_neg (by omega), if_pos hqp, hl]
          rfl
        · rw [(add_child_parent_name _ _).1]
          exact hparn
        · rw [(add_child_parent_name _ _).2]
          exact hnm
      · refine ⟨nd, ?_, hparn, hnm⟩
        rw [hlook q.2, if_neg (by omega), if_neg hqp]
        exact hl
  -- childBack
  · intro p hp2 c hc
    rcases hmem p hp2 with rfl | ⟨q, hq, rfl⟩
    · exact absurd hc (List.not_mem_nil c)
    · have hcase : (c ∈ q.2.children ∧
          (if q.1 = p0 then (q.1, q.2.add_child m.next_ino) else q).1 = q.1) ∨
          (c = m.next_ino ∧ q.1 = p0 ∧
          (if q.1 = p0 then (q.1, q.2.add_child m.next_ino) else q).1 = q.1) := by
        revert hc
        split
        · intro hc
          rcases mem_add_child_children _ _ _ hc with h1 | rfl
          · exact Or.inl ⟨h1, rfl⟩
          · rename_i hq1p
            exact Or.inr ⟨rfl, hq1p, rfl⟩
        · intro hc
          exact Or.inl ⟨hc, rfl⟩
      rcases hcase with ⟨hc2, hkey⟩ | ⟨rfl, hq1p, hkey⟩
      · obtain ⟨nd, hl, hpar2⟩ := hINV.childBack q hq c hc2
        have hclt : c < m.next_ino := hINV.freshChildren q hq c hc2
        rw [hkey]
        by_cases hcp : c = p0
        · refine ⟨nd.add_child m.next_ino, ?_, ?_⟩
          · rw [hlook c, if_neg (by omega), if_pos hcp, hl]
            rfl
          · rw [(add_child_parent_name _ _).1]
            exact hpar2
        · refine ⟨nd, ?_, hpar2⟩
          rw [hlook c, if_neg (by omega), if_neg hcp]
          exact hl
      · rw [hkey, hq1p]
        refine ⟨VNode.new ext m.next_ino p0 nm t, ?_, rfl⟩
        rw [hlook m.next_ino, if_pos rfl]

theorem TreeINV.remove (m : InodeManager) (i : Nat) (n : VNode)
    (hINV : TreeINV m) (hi1 : i ≠ 1) (hg : m.get_node i = some n)
    (hleaf : n.children = []) :
    TreeINV (removedState m i n) := by
  have hga : alookup m.nodes i = some n := hg
  have hmemn : (i, n) ∈ m.nodes := alookup_mem _ _ _ hga
  have hkn : n.ino = i := hINV.keys _ hmemn
  obtain ⟨parN, hlN, hcN, hiN⟩ := hINV.main (i, n) hmemn hi1
  have hlook : ∀ k, alookup (removedState m i n).nodes k =
      if k = i then none
      else if k = n.parent_ino then
        (alookup m.nodes k).map (fun v => v.remove_child i)
      else alookup m.nodes k := by
    intro k
    show alookup (aerase (amodify m.nodes n.parent_ino
      (fun p => p.remove_child i)) i) k = _
    rw [alookup_aerase, alookup_amodify]
  have hilook : ∀ q, alookup (removedState m i n).name_to_ino q =
      if q = (n.parent_ino, n.name) then none
      else alookup m.name_to_ino q := by
    intro q
    exact alookup_aerase _ _ _
  have hmem : ∀ p : Nat × VNode, p ∈ (removedState m i n).nodes →
      p.1 ≠ i ∧ ∃ q ∈ m.nodes,
        p = if q.1 = n.parent_ino then (q.1, q.2.remove_child i) else q := by
    intro p hp
    have h2 := (mem_aerase_iff _ _ _).mp hp
    exact ⟨h2.2, mem_amodify _ _ _ _ h2.1⟩
  have hnoparent : ∀ q ∈ m.nodes, (q : Nat × VNode).1 ≠ 1 →
      (q : Nat × VNode).2.parent_ino ≠ i := by
    intro q hq hq1 hpar
    obtain ⟨par0, hl0, hc0, _⟩ := hINV.main q hq hq1
    rw [hpar, hga, Option.some.injEq] at hl0
    rw [← hl0, hleaf] at hc0
    simp at hc0
  constructor
  -- rootMem
  · obtain ⟨r, hr, hrd, hrp⟩ := hINV.rootMem
    by_cases h1p : (1 : Nat) = n.parent_ino
    · refine ⟨r.remove_child i, ?_, ?_, ?_⟩
      · rw [hlook 1, if_neg (fun h => hi1 h.symm), if_pos h1p, hr]
        rfl
      · rw [remove_child_file_type]
        exact hrd
      · rw [(remove_child_parent_name _ _).1]
        exact hrp
    · refine ⟨r, ?_, hrd, hrp⟩
      rw [hlook 1, if_neg (fun h => hi1 h.symm), if_neg h1p]
      exact hr
  -- keys
  · intro p hp2
    obtain ⟨hpne, q, hq, rfl⟩ := hmem p hp2
    have hk := hINV.keys q hq
    split
    · show (q.2.remove_child i).ino = q.1
      rw [remove_child_ino]
      exact hk
    · exact hk
  -- freshNodes
  · intro p hp2
    obtain ⟨hpne, q, hq, rfl⟩ := hmem p hp2
    show _ < m.next_ino
    have := hINV.freshNodes q hq
    split <;> exact this
  -- freshChildren
  · intro p hp2 c hc
    obtain ⟨hpne, q, hq, rfl⟩ := hmem p hp2
    show c < m.next_ino
    have hold := hINV.freshChildren q hq
    revert hc
    split
    · intro hc
      exact hold c (mem_remove_child_children _ _ _ hc).1
    · intro hc
      exact hold c hc
  -- freshIdx
  · intro q hq
    have h2 := (mem_aerase_iff _ _ _).mp hq
    exact hINV.freshIdx q h2.1
  -- main
  · intro p hp2 hne
    obtain ⟨hpne, q, hq, rfl⟩ := hmem p hp2
    have hq1ne : q.1 ≠ 1 := by
      revert hne
      split <;> exact fun h => h
    have hq1nei : q.1 ≠ i := by
      revert hpne
      split <;> exact fun h => h
    obtain ⟨par0, hl0, hc0, hi0⟩ := hINV.main q hq hq1ne
    have hkq := hINV.keys q hq
    have hparne : q.2.parent_ino ≠ i := hnoparent q hq hq1ne
    have hfields : (if q.1 = n.parent_ino then (q.1, q.2.remove_child i) else q).2.parent_ino
          = q.2.parent_ino ∧
        (if q.1 = n.parent_ino then (q.1, q.2.remove_child i) else q).2.name = q.2.name ∧
        (if q.1 = n.parent_ino then (q.1, q.2.remove_child i) else q).2.ino = q.2.ino := by
      split
      · exact ⟨rfl, rfl, rfl⟩
      · exact ⟨rfl, rfl, rfl⟩
    rw [hfields.1, hfields.2.1, hfields.2.2]
    have hidx_ne : (q.2.parent_ino, q.2.name) ≠ (n.parent_ino, n.name) := by
      intro hkey
      rw [hkey] at hi0
      rw [hiN, Option.some.injEq] at hi0
      rw [hkn] at hi0
      exact hq1nei (by rw [← hkq, hi0])
    by_cases hpp : q.2.parent_ino = n.parent_ino
    · refine ⟨par0.remove_child i, ?_, ?_, ?_⟩
      · rw [hlook q.2.parent_ino, if_neg hparne, if_pos hpp, hl0]
        rfl
      · rw [remove_child_count_ne par0 _ _ (by rw [hkq]; exact hq1nei)]
        exact hc0
      · rw [hilook _, if_neg hidx_ne]
        exact hi0
    · refine ⟨par0, ?_, hc0, ?_⟩
      · rw [hlook q.2.parent_ino, if_neg hparne, if_neg hpp]
        exact hl0
      · rw [hilook _, if_neg hidx_ne]
        exact hi0
  -- inverse
  · intro q hq
    have h2 := (mem_aerase_iff _ _ _).mp hq
    obtain ⟨hq2, hkne⟩ := h2
    obtain ⟨nd, hl, hpar, hnm⟩ := hINV.inverse q hq2
    have hq2ne : q.2 ≠ i := by
      intro hq2i
      rw [hq2i, hga, Option.some.injEq] at hl
      apply hkne
      have : q.1 = (q.1.1, q.1.2) := rfl
      rw [this, ← hpar, ← hnm, ← hl]
    by_cases hqp : q.2 = n.parent_ino
    · refine ⟨nd.remove_child i, ?_, hpar, hnm⟩
      rw [hlook q.2, if_neg hq2ne, if_pos hqp, hl]
      rfl
    · refine ⟨nd, ?_, hpar, hnm⟩
      rw [hlook q.2, if_neg hq2ne, if_neg hqp]
      exact hl
  -- childBack
  · intro p hp2 c hc
    obtain ⟨hpne, q, hq, rfl⟩ := hmem p hp2
    have hkey : (if q.1 = n.parent_ino then (q.1, q.2.remove_child i) else q).1 = q.1 := by
      split
      · rfl
      · rfl
    have hc2 : c ∈ q.2.children ∧ c ≠ i := by
      revert hc
      split
      · intro hc
        exact mem_remove_child_children _ _ _ hc
      · rename_i hq1p
        intro hc
        refine ⟨hc, ?_⟩
        intro hci
        obtain ⟨nd, hl, hpar⟩ := hINV.childBack q hq c hc
        rw [hci, hga, Option.some.injEq] at hl
        rw [← hl] at hpar
        exact hq1p hpar.symm
    obtain ⟨nd, hl, hpar⟩ := hINV.childBack q hq c hc2.1
    rw [hkey]
    by_cases hcp : c = n.parent_ino
    · refine ⟨nd.remove_child i, ?_, hpar⟩
      rw [hlook c, if_neg hc2.2, if_pos hcp, hl]
      rfl
    · refine ⟨nd, ?_, hpar⟩
      rw [hlook c, if_neg hc2.2, if_neg hcp]
      exact hl

theorem treeINV_exec (ext : Externals) (ops : List TreeOp) :
    ∀ m : InodeManager, TreeINV m →
      leafRemovalsOnly ext m ops = true → TreeINV (execOps ext m ops) := by
  induction ops with
  | nil =>
    intro m hINV _
    exact hINV
  | cons op rest ih =>
    intro m hINV hleaf
    unfold leafRemovalsOnly at hleaf
    rw [Bool.and_eq_true] at hleaf
    obtain ⟨hop, hrest⟩ := hleaf
    refine ih (applyOp ext m op) ?_ hrest
    cases op with
    | create p nm t =>
      show TreeINV (match m.create_node ext p nm t with
        | .ok (_, m1) => m1
        | .error _ => m)
      cases hc : m.create_node ext p nm t with
      | error e => exact hINV
      | ok r =>
        obtain ⟨ino2, m2⟩ := r
        show TreeINV m2
        obtain ⟨hino, hm2, par, hp, hdir2, hname⟩ :=
          create_node_ok ext m p nm t ino2 m2 hc
        rw [hm2]
        exact TreeINV.create ext m p nm t par hINV hp hdir2 hname
    | remove i =>
      show TreeINV (match m.remove_node i with
        | .ok m1 => m1
        | .error _ => m)
      cases hr : m.remove_node i with
      | error e => exact hINV
      | ok m2 =>
        show TreeINV m2
        obtain ⟨hi1, node, hgn, hm2⟩ := remove_node_ok m i m2 hr
        have hempty : node.children = [] := by
          simp only [hgn] at hop
          simpa using hop
        rw [hm2]
        exact TreeINV.remove m i node hINV hi1 hgn hempty

/-- C2 counterexample: from the fresh tree, create a directory (ino 2),
create a child inside it (ino 3), then remove_node the directory alone.
The child survives with parent_ino 2 while node 2 is gone, so the claimed
invariant fails for this create/remove sequence. -/
theorem C2_invariant_counterexample : ¬ treeInv orphanState := by
  intro h
  obtain ⟨n, hn⟩ : ∃ n, orphanState.get_node 3 = some n := by
    cases hl : orphanState.get_node 3 with
    | none => exact absurd hl (by decide)
    | some v => exact ⟨v, rfl⟩
  have hmem := alookup_mem _ _ _ hn
  have h3 := (h _ hmem).2 (show (3 : Nat) ≠ 1 by decide)
  obtain ⟨par, hpar, _, _⟩ := h3
  have hp2 : n.parent_ino = 2 := by
    have h2 : (orphanState.get_node 3).map VNode.parent_ino = some 2 := by decide
    rw [hn] at h2
    simpa using h2
  rw [hp2] at hpar
  have hnone : alookup orphanState.nodes 2 = none := by decide
  rw [hnone] at hpar
  exact absurd hpar (by simp)

/-- C2 amended: the claimed invariant (every non-root node keyed by its
ino, with an existing parent whose child list holds it exactly once and a
name-index entry resolving to it) holds in every state reachable from the
fresh tree by create_node and remove_node operations in which every remove
targets a node that currently has no children, the discipline the
filesystem layer follows.  Removing a populated directory orphans its
children and breaks the invariant. -/
theorem C2_invariant_reachable (ext : Externals) (ops : List TreeOp)
    (h : leafRemovalsOnly ext (InodeManager.new ext) ops = true) :
    treeInv (execOps ext (InodeManager.new ext) ops) :=
  (treeINV_exec ext ops (InodeManager.new ext) (treeINV_new ext) h).toTreeInv

/-- C2 witness: the invariant after building and tearing down one feed
directory with one article, leaves first. -/
theorem C2_invariant_reachable_witness :
    leafRemovalsOnly ext0 (InodeManager.new ext0) w2ops = true ∧
    treeInv (execOps ext0 (InodeManager.new ext0) w2ops) :=
  ⟨by decide, C2_invariant_reachable ext0 w2ops (by decide)⟩

/-! ## C1: feed subtree replacement (corrected: the directory's ino is not
preserved; the directory itself is removed and rebuilt fresh) -/

theorem alookup_eq_none_of_keys {κ α : Type} [DecidableEq κ]
    (l : List (κ × α)) (k : κ) (h : ∀ q ∈ l, (q : κ × α).1 ≠ k) :
    alookup l k = none := by
  induction l with
  | nil => rfl
  | cons a t ih =>
    rcases a with ⟨a1, a2⟩
    rw [alookup_cons, if_neg (h (a1, a2) (List.mem_cons_self _ _))]
    exact ih (fun q hq => h q (List.mem_cons_of_mem _ hq))

theorem removedState_lookup (s : InodeManager) (i : Nat) (n : VNode) (k : Nat) :
    alookup (removedState s i n).nodes k =
      if k = i then none
      else if k = n.parent_ino then
        (alookup s.nodes k).map (fun v => v.remove_child i)
      else alookup s.nodes k := by
  show alookup (aerase (amodify s.nodes n.parent_ino
    (fun p => p.remove_child i)) i) k = _
  rw [alookup_aerase, alookup_amodify]

theorem removedState_preserves_none (s : InodeManager) (i : Nat) (n : VNode)
    (k : Nat) (h : alookup s.nodes k = none) :
    alookup (removedState s i n).nodes k = none := by
  rw [removedState_lookup]
  by_cases hki : k = i
  · rw [if_pos hki]
  · rw [if_neg hki]
    by_cases hkp : k = n.parent_ino
    · rw [if_pos hkp, h]
      rfl
    · rw [if_neg hkp]
      exact h

theorem createdState_lookup (ext : Externals) (s : InodeManager) (p0 : Nat)
    (nm : String) (t : NodeType)
    (hfresh : ∀ pr ∈ s.nodes, (pr : Nat × VNode).1 ≠ s.next_ino)
    (hp0 : p0 ≠ s.next_ino) (k : Nat) :
    alookup (createdState ext s p0 nm t).nodes k =
      if s.next_ino = k then some (VNode.new ext s.next_ino p0 nm t)
      else if k = p0 then
        (alookup s.nodes k).map (fun v => v.add_child s.next_ino)
      else alookup s.nodes k := by
  have hnodes_eq : (createdState ext s p0 nm t).nodes =
      (s.next_ino, VNode.new ext s.next_ino p0 nm t) ::
        amodify s.nodes p0 (fun v => v.add_child s.next_ino) := by
    show amodify (ainsert s.nodes s.next_ino (VNode.new ext s.next_ino p0 nm t)) p0
        (fun v => v.add_child s.next_ino) = _
    unfold ainsert
    rw [filter_ne_eq_self s.nodes s.next_ino hfresh]
    unfold amodify
    rw [List.map_cons]
    congr 1
    exact if_neg (fun h => hp0 h.symm)
  rw [hnodes_eq, alookup_cons, alookup_amodify]

theorem createdState_preserves_none (ext : Externals) (s : InodeManager)
    (p0 : Nat) (nm : String) (t : NodeType) (k : Nat)
    (h : alookup s.nodes k = none) (hk : k ≠ s.next_ino) :
    alookup (createdState ext s p0 nm t).nodes k = none := by
  show alookup (amodify (ainsert s.nodes s.next_ino
      (VNode.new ext s.next_ino p0 nm t)) p0
    (fun v => v.add_child s.next_ino)) k = none
  rw [alookup_amodify]
  have hins : alookup (ainsert s.nodes s.next_ino
      (VNode.new ext s.next_ino p0 nm t)) k = none := by
    rw [alookup_ainsert, if_neg (fun hh => hk hh.symm)]
    exact h
  by_cases hkp : k = p0
  · rw [if_pos hkp, hins]
    rfl
  · rw [if_neg hkp]
    exact hins

theorem filterMap_congr_mem {α β : Type} (l : List α) (f g : α → Option β)
    (h : ∀ a ∈ l, f a = g a) : l.filterMap f = l.filterMap g := by
  induction l with
  | nil => rfl
  | cons a t ih =>
    rw [List.filterMap_cons, List.filterMap_cons, h a (List.mem_cons_self _ _),
      ih (fun b hb => h b (List.mem_cons_of_mem _ hb))]

theorem filterMap_ino_of_back (nodes : List (Nat × VNode)) (l : List Nat)
    (h : ∀ k ∈ l, ∃ nd, alookup nodes k = some nd ∧ nd.ino = k) :
    ((l.filterMap (alookup nodes)).map VNode.ino) = l := by
  induction l with
  | nil => rfl
  | cons a t ih =>
    obtain ⟨nd, hnd, hino⟩ := h a (List.mem_cons_self _ _)
    rw [List.filterMap_cons, hnd, List.map_cons, hino,
      ih (fun k hk => h k (List.mem_cons_of_mem _ hk))]

theorem removeChildrenLoop (dino : Nat) (hd1 : dino ≠ 1) (feed : String) :
    ∀ (cs : List VNode) (s : InodeManager), TreeINV s →
    (∀ c ∈ cs, (c : VNode).ino ≠ 1 ∧
      ∃ nc, alookup s.nodes (c : VNode).ino = some nc ∧ nc.children = [] ∧
        nc.parent_ino = dino ∧ nc.ino = (c : VNode).ino) →
    (∃ dd, alookup s.nodes dino = some dd ∧ dd.children = cs.map VNode.ino ∧
      dd.parent_ino = 1 ∧ dd.name = feed) →
    alookup s.name_to_ino (1, feed) = some dino →
    TreeINV (removeFold s cs) ∧
    (removeFold s cs).next_ino = s.next_ino ∧
    (∀ c ∈ cs, alookup (removeFold s cs).nodes (c : VNode).ino = none) ∧
    (∃ dd, alookup (removeFold s cs).nodes dino = some dd ∧ dd.children = [] ∧
      dd.parent_ino = 1 ∧ dd.name = feed) ∧
    alookup (removeFold s cs).name_to_ino (1, feed) = some dino ∧
    (∀ k, alookup s.nodes k = none → alookup (removeFold s cs).nodes k = none) := by
  intro cs
  induction cs with
  | nil =>
    intro s hINV hcs hdd hidx
    obtain ⟨dd, h1, h2, h3, h4⟩ := hdd
    exact ⟨hINV, rfl, by simp, ⟨dd, h1, h2, h3, h4⟩, hidx, fun k hk => hk⟩
  | cons c cs ih =>
    intro s hINV hcs hdd hidx
    obtain ⟨hc1, nc, hnc, hncch, hncp, hnci⟩ := hcs c (List.mem_cons_self _ _)
    obtain ⟨dd, hddl, hddch, hddp, hddn⟩ := hdd
    have hdinoc : dino ≠ c.ino := by
      intro heq
      rw [← heq, hddl, Option.some.injEq] at hnc
      rw [← hnc] at hncp
      rw [hddp] at hncp
      exact hd1 hncp.symm
    have hstep : removeFold s (c :: cs) =
        removeFold (removedState s c.ino nc) cs := by
      unfold removeFold
      rw [List.foldl_cons, remove_node_succeeds s c.ino nc hc1 hnc]
    -- c.ino occurs exactly once among the child inos
    have hmemnc : (c.ino, nc) ∈ s.nodes := alookup_mem _ _ _ hnc
    obtain ⟨parC, hparC, hcountC, _⟩ := hINV.main (c.ino, nc) hmemnc hc1
    have hcountC2 : parC.children.count nc.ino = 1 := hcountC
    have hparC2 : parC = dd := by
      rw [show ((c.ino, nc) : Nat × VNode).2.parent_ino = dino from hncp, hddl,
        Option.some.injEq] at hparC
      exact hparC.symm
    have hcnotin : c.ino ∉ cs.map VNode.ino := by
      rw [hparC2, hddch, List.map_cons, hnci, List.count_cons] at hcountC2
      simp only [beq_self_eq_true, if_true] at hcountC2
      intro hmem2
      have hpos := List.count_pos_iff.mpr hmem2
      omega
    -- facts for the recursive call on the removed state
    have hlookR := removedState_lookup s c.ino nc
    have hINV2 := TreeINV.remove s c.ino nc hINV hc1 hnc hncch
    have hcs2 : ∀ c2 ∈ cs, (c2 : VNode).ino ≠ 1 ∧
        ∃ nc2, alookup (removedState s c.ino nc).nodes (c2 : VNode).ino = some nc2 ∧
          nc2.children = [] ∧ nc2.parent_ino = dino ∧
          nc2.ino = (c2 : VNode).ino := by
      intro c2 hc2
      obtain ⟨h1, nc2, hl2, hch2, hp2, hi2⟩ := hcs c2 (List.mem_cons_of_mem _ hc2)
      have hne : c2.ino ≠ c.ino := by
        intro heq
        apply hcnotin
        rw [← heq]
        exact List.mem_map_of_mem VNode.ino hc2
      have hne2 : c2.ino ≠ nc.parent_ino := by
        rw [hncp]
        intro heq
        rw [heq, hddl, Option.some.injEq] at hl2
        rw [← hl2] at hp2
        rw [hddp] at hp2
        exact hd1 hp2.symm
      refine ⟨h1, nc2, ?_, hch2, hp2, hi2⟩
      rw [hlookR c2.ino, if_neg hne, if_neg hne2]
      exact hl2
    have hdd2 : ∃ dd2, alookup (removedState s c.ino nc).nodes dino = some dd2 ∧
        dd2.children = cs.map VNode.ino ∧ dd2.parent_ino = 1 ∧
        dd2.name = feed := by
      refine ⟨dd.remove_child c.ino, ?_, ?_, hddp, hddn⟩
      · rw [hlookR dino, if_neg hdinoc, hncp, if_pos rfl, hddl]
        rfl
      · show dd.children.filter (fun i => i ≠ c.ino) = cs.map VNode.ino
        rw [hddch, List.map_cons]
        have h1 : (c.ino :: cs.map VNode.ino).filter (fun i => i ≠ c.ino) =
            (cs.map VNode.ino).filter (fun i => i ≠ c.ino) := by
          simp
        rw [h1, List.filter_eq_self]
        intro a ha
        simp only [ne_eq, decide_not, Bool.not_eq_eq_eq_not, Bool.not_true,
          decide_eq_false_iff_not]
        intro heq
        exact hcnotin (heq ▸ ha)
    have hidx2 : alookup (removedState s c.ino nc).name_to_ino (1, feed) =
        some dino := by
      show alookup (aerase s.name_to_ino (nc.parent_ino, nc.name)) (1, feed) = _
      rw [alookup_aerase, if_neg ?hne]
      · exact hidx
      case hne =>
        intro heq
        have : (1 : Nat) = nc.parent_ino := congrArg Prod.fst heq
        rw [hncp] at this
        exact hd1 this.symm
    obtain ⟨rINV, rnext, rdead, rdd, ridx, rnone⟩ :=
      ih (removedState s c.ino nc) hINV2 hcs2 hdd2 hidx2
    rw [hstep]
    refine ⟨rINV, by rw [rnext]; rfl, ?_, rdd, ridx, ?_⟩
    · intro c2 hc2
      rcases List.mem_cons.mp hc2 with rfl | hc2b
      · apply rnone
        rw [hlookR c2.ino, if_pos rfl]
      · exact rdead c2 hc2b
    · intro k hk
      exact rnone k (removedState_preserves_none s c.ino nc k hk)

theorem addArticlesLoop (ext : Externals) (feed : String) (f : Nat)
    (hf1 : f ≠ 1) (dead : List Nat) :
    ∀ (todo : List Article) (fns : List String) (s : InodeManager),
    TreeINV s →
    (∃ dd, alookup s.name_to_ino (1, feed) = some f ∧
      alookup s.nodes f = some dd ∧ dd.file_type = FileType.directory ∧
      (s.list_children f).map VNode.name = fns) →
    (∀ x, (alookup s.name_to_ino (f, x)).isSome = true → x ∈ fns) →
    (∀ a ∈ todo, (a.markdown_filename).isSome = true) →
    (fns ++ todo.filterMap Article.markdown_filename).Nodup →
    (∀ k ∈ dead, k < f ∧ alookup s.nodes k = none) →
    TreeINV (addArticlesFold ext feed s todo) ∧
    (∃ dd2, alookup (addArticlesFold ext feed s todo).name_to_ino (1, feed) = some f ∧
      alookup (addArticlesFold ext feed s todo).nodes f = some dd2 ∧
      dd2.file_type = FileType.directory ∧
      ((addArticlesFold ext feed s todo).list_children f).map VNode.name =
        fns ++ todo.filterMap Article.markdown_filename) ∧
    (∀ k ∈ dead, alookup (addArticlesFold ext feed s todo).nodes k = none) := by
  intro todo
  induction todo with
  | nil =>
    intro fns s hINV hdir hidxf hfn hnodup hdead
    obtain ⟨dd, h1, h2, h3, h4⟩ := hdir
    simp only [List.filterMap_nil, List.append_nil]
    exact ⟨hINV, ⟨dd, h1, h2, h3, h4⟩, fun k hk => (hdead k hk).2⟩
  | cons a todo ih =>
    intro fns s hINV hdir hidxf hfn hnodup hdead
    obtain ⟨dd, hif, hnf, hft, hnames⟩ := hdir
    obtain ⟨fn, hfn1⟩ : ∃ fn, a.markdown_filename = some fn :=
      Option.isSome_iff_exists.mp (hfn a (List.mem_cons_self _ _))
    have hrest : (a :: todo).filterMap Article.markdown_filename =
        fn :: todo.filterMap Article.markdown_filename := by
      simp only [List.filterMap_cons, hfn1]
    rw [hrest] at hnodup ⊢
    have hmemdd : (f, dd) ∈ s.nodes := alookup_mem _ _ _ hnf
    have hdino : dd.ino = f := hINV.keys _ hmemdd
    have hflt : f < s.next_ino := hINV.freshNodes _ hmemdd
    have hfresh_notin : ∀ pr ∈ s.nodes, (pr : Nat × VNode).1 ≠ s.next_ino := by
      intro pr hpr
      have := hINV.freshNodes pr hpr
      omega
    have hidxnone : alookup s.name_to_ino (f, fn) = none := by
      cases hl : alookup s.name_to_ino (f, fn) with
      | none => rfl
      | some v =>
        have hx : fn ∈ fns := hidxf fn (by rw [hl]; rfl)
        exact absurd ((List.nodup_append.mp hnodup).2.2 hx)
          (fun hno => hno (List.mem_cons_self _ _))
    have hbyname : s.get_node_by_name 1 feed = some dd := by
      unfold InodeManager.get_node_by_name
      rw [hif]
      exact hnf
    have hbyname2 : s.get_node_by_name f fn = none := by
      unfold InodeManager.get_node_by_name
      rw [hidxnone]
    have hdirb : dd.is_directory = true := by
      unfold VNode.is_directory
      rw [hft]
      rfl
    have hcreate : s.create_node ext f fn (.articleFile feed a) =
        .ok (s.next_ino, createdState ext s f fn (.articleFile feed a)) :=
      create_node_succeeds ext s f fn _ dd hnf hdirb hbyname2
    have hcaf : s.create_article_file ext feed a =
        .ok (s.next_ino, createdState ext s f fn (.articleFile feed a)) := by
      unfold InodeManager.create_article_file
      simp only [hfn1, hbyname]
      rw [hdino, hcreate]
    have hstep : addArticlesFold ext feed s (a :: todo) =
        addArticlesFold ext feed
          (createdState ext s f fn (.articleFile feed a)) todo := by
      unfold addArticlesFold
      rw [List.foldl_cons]
      congr 1
      rw [hcaf]
    have hINV2 := TreeINV.create ext s f fn (.articleFile feed a) dd hINV hnf
      hdirb hbyname2
    have hlookC := createdState_lookup ext s f fn (.articleFile feed a)
      hfresh_notin (by omega)
    have hnfne : ¬ ((f, fn) = ((1 : Nat), feed)) := by
      intro hpair
      exact hf1 (congrArg Prod.fst hpair)
    have hif2 : alookup (createdState ext s f fn
        (.articleFile feed a)).name_to_ino (1, feed) = some f := by
      show alookup (ainsert s.name_to_ino (f, fn) s.next_ino) (1, feed) = some f
      rw [alookup_ainsert, if_neg hnfne]
      exact hif
    have hnf2 : alookup (createdState ext s f fn
        (.articleFile feed a)).nodes f = some (dd.add_child s.next_ino) := by
      rw [hlookC f, if_neg (by omega), if_pos rfl, hnf]
      rfl
    have hchd : (dd.add_child s.next_ino).children =
        dd.children ++ [s.next_ino] := by
      unfold VNode.add_child
      rw [if_neg]
      intro hcont
      have hmem2 : s.next_ino ∈ dd.children := by
        simpa using hcont
      have := hINV.freshChildren _ hmemdd _ hmem2
      omega
    have hnames2 : ((createdState ext s f fn
        (.articleFile feed a)).list_children f).map VNode.name = fns ++ [fn] := by
      unfold InodeManager.list_children InodeManager.get_node
      simp only [hnf2]
      rw [hchd, List.filterMap_append, List.map_append]
      congr 1
      · have hcongr : ∀ c ∈ dd.children,
            (alookup (createdState ext s f fn (.articleFile feed a)).nodes c).map
              VNode.name = (alookup s.nodes c).map VNode.name := by
          intro c hc
          have hclt := hINV.freshChildren _ hmemdd c hc
          rw [hlookC c, if_neg (by omega)]
          by_cases hcf : c = f
          · rw [if_pos hcf, Option.map_map]
            cases alookup s.nodes c with
            | none => rfl
            | some v =>
              show some ((v.add_child s.next_ino).name) = some v.name
              rw [(add_child_parent_name _ _).2]
          · rw [if_neg hcf]
        rw [List.map_filterMap]
        rw [filterMap_congr_mem dd.children
          (fun x => (alookup (createdState ext s f fn
            (.articleFile feed a)).nodes x).map VNode.name)
          (fun x => (alookup s.nodes x).map VNode.name) hcongr]
        rw [← List.map_filterMap]
        have hnamesfns : (s.list_children f).map VNode.name = fns := hnames
        rw [← hnamesfns]
        unfold InodeManager.list_children InodeManager.get_node
        simp only [hnf]
      · rw [List.filterMap_cons, hlookC s.next_ino, if_pos rfl]
        rfl
    have hidxf2 : ∀ x, (alookup (createdState ext s f fn
        (.articleFile feed a)).name_to_ino (f, x)).isSome = true →
        x ∈ fns ++ [fn] := by
      intro x hx
      show x ∈ fns ++ [fn]
      have : alookup (ainsert s.name_to_ino (f, fn) s.next_ino) (f, x) =
          if (f, fn) = (f, x) then some s.next_ino
          else alookup s.name_to_ino (f, x) := alookup_ainsert _ _ _ _
      rw [show (createdState ext s f fn (.articleFile feed a)).name_to_ino =
        ainsert s.name_to_ino (f, fn) s.next_ino from rfl, this] at hx
      by_cases hfx : ((f, fn) : Nat × String) = (f, x)
      · have : fn = x := congrArg Prod.snd hfx
        exact List.mem_append.mpr (Or.inr (by rw [← this]; exact List.mem_singleton.mpr rfl))
      · rw [if_neg hfx] at hx
        exact List.mem_append.mpr (Or.inl (hidxf x hx))
    have hnodup2 : ((fns ++ [fn]) ++ todo.filterMap Article.markdown_filename).Nodup := by
      rw [List.append_assoc, List.singleton_append]
      exact hnodup
    have hdead2 : ∀ k ∈ dead, k < f ∧
        alookup (createdState ext s f fn (.articleFile feed a)).nodes k = none := by
      intro k hk
      obtain ⟨hk1, hk2⟩ := hdead k hk
      exact ⟨hk1, createdState_preserves_none ext s f fn _ k hk2 (by omega)⟩
    obtain ⟨rINV, ⟨dd2, r1, r2, r3, r4⟩, rdead⟩ :=
      ih (fns ++ [fn]) (createdState ext s f fn (.articleFile feed a)) hINV2
        ⟨dd.add_child s.next_ino, hif2, hnf2,
          by rw [add_child_file_type]; exact hft, hnames2⟩
        hidxf2 (fun a2 ha2 => hfn a2 (List.mem_cons_of_mem _ ha2)) hnodup2 hdead2
    rw [hstep]
    refine ⟨rINV, ⟨dd2, r1, r2, r3, ?_⟩, rdead⟩
    rw [r4, List.append_assoc, List.singleton_append]

/-- C1 counterexample: adding feed "f" with one article to a fresh tree
puts the feed directory at ino 2; replacing the feed's content with
add_feed moves the directory to ino 4 — the directory's ino is not
preserved across a content replacement. -/
theorem C1_add_feed_counterexample :
    ((add_feed ext0 (add_feed ext0 (InodeManager.new ext0) "f" [artA]) "f"
        [artB]).get_node_by_name 1 "f").map VNode.ino = some 4 ∧
    ((add_feed ext0 (InodeManager.new ext0) "f"
        [artA]).get_node_by_name 1 "f").map VNode.ino = some 2 ∧
    (4 : Nat) ≠ 2 :=
  ⟨rfl, rfl, by decide⟩

/-- C1 amended: add_feed removes every child article file of the feed
directory and then the feed directory itself, re-creating the directory
under a fresh ino (the ino is not preserved); the new article files become
the children of the fresh directory, whose listing is exactly the new
articles' markdown filenames in order, while the old directory and old
article nodes are gone. -/
theorem C1_add_feed_replaces_subtree (ext : Externals) (m : InodeManager)
    (feed : String) (articles : List Article) (d : VNode)
    (hINV : TreeINV m)
    (hd0 : m.get_node_by_name 1 feed = some d)
    (hd1 : d.ino ≠ 1)
    (hleaves : ∀ c ∈ m.list_children d.ino, (c : VNode).children = [])
    (hfn : ∀ a ∈ articles, (a.markdown_filename).isSome = true)
    (hnodup : (articles.filterMap Article.markdown_filename).Nodup) :
    ∃ d2, (add_feed ext m feed articles).get_node_by_name 1 feed = some d2 ∧
      d2.ino = m.next_ino ∧ d2.ino ≠ d.ino ∧
      ((add_feed ext m feed articles).list_children d2.ino).map VNode.name =
        articles.filterMap Article.markdown_filename ∧
      (∀ c ∈ m.list_children d.ino,
        (add_feed ext m feed articles).get_node (c : VNode).ino = none) ∧
      (add_feed ext m feed articles).get_node d.ino = none := by
  -- unpack the feed-directory lookup
  have hd0b := hd0
  unfold InodeManager.get_node_by_name at hd0b
  rcases hidx0 : alookup m.name_to_ino (1, feed) with _ | i
  · rw [hidx0] at hd0b
    exact absurd hd0b (by simp)
  rw [hidx0] at hd0b
  change alookup m.nodes i = some d at hd0b
  have hmemd : (i, d) ∈ m.nodes := alookup_mem _ _ _ hd0b
  have hdino : d.ino = i := hINV.keys _ hmemd
  have hlookd : alookup m.nodes d.ino = some d := by
    rw [hdino]
    exact hd0b
  have hdlt : d.ino < m.next_ino := by
    rw [hdino]
    exact hINV.freshNodes _ hmemd
  have hmemidx : ((1, feed), i) ∈ m.name_to_ino := alookup_mem _ _ _ hidx0
  obtain ⟨nd, hndl, hndp, hndn⟩ := hINV.inverse _ hmemidx
  have hnd : nd = d := by
    rw [show (((1, feed), i) : (Nat × String) × Nat).2 = i from rfl] at hndl
    rw [hd0b, Option.some.injEq] at hndl
    exact hndl.symm
  have hdp : d.parent_ino = 1 := by
    rw [← hnd]
    exact hndp
  have hdn : d.name = feed := by
    rw [← hnd]
    exact hndn
  have hidxd : alookup m.name_to_ino (1, feed) = some d.ino := by
    rw [hidx0, hdino]
  -- the children snapshot
  have hlc : m.list_children d.ino = d.children.filterMap (alookup m.nodes) := by
    unfold InodeManager.list_children InodeManager.get_node
    simp only [hlookd]
  have hcfacts : ∀ c ∈ m.list_children d.ino, (c : VNode).ino ≠ 1 ∧
      ∃ nc, alookup m.nodes (c : VNode).ino = some nc ∧ nc.children = [] ∧
        nc.parent_ino = d.ino ∧ nc.ino = (c : VNode).ino := by
    intro c hc
    have hc2 := hc
    rw [hlc] at hc2
    obtain ⟨k, hk, hkc⟩ := List.mem_filterMap.mp hc2
    obtain ⟨nd2, hnd2, hnd2p⟩ := hINV.childBack (d.ino, d)
      (alookup_mem _ _ _ hlookd) k hk
    have hnd2c : nd2 = c := by
      rw [hkc, Option.some.injEq] at hnd2
      exact hnd2.symm
    have hcino : c.ino = k := by
      rw [← hnd2c]
      exact hINV.keys (k, nd2) (alookup_mem _ _ _ hnd2)
    have hcpar : c.parent_ino = d.ino := by
      rw [← hnd2c]
      exact hnd2p
    have hcne1 : c.ino ≠ 1 := by
      intro hone
      obtain ⟨r, hr, _, hrp⟩ := hINV.rootMem
      have : alookup m.nodes 1 = some c := by
        rw [← hone, hcino]
        exact hkc
      rw [hr, Option.some.injEq] at this
      rw [this] at hrp
      rw [hcpar] at hrp
      exact hd1 hrp
    refine ⟨hcne1, c, ?_, hleaves c hc, hcpar, rfl⟩
    rw [hcino]
    exact hkc
  have hddclause : ∃ dd, alookup m.nodes d.ino = some dd ∧
      dd.children = (m.list_children d.ino).map VNode.ino ∧
      dd.parent_ino = 1 ∧ dd.name = feed := by
    refine ⟨d, hlookd, ?_, hdp, hdn⟩
    rw [hlc, filterMap_ino_of_back]
    intro k hk
    obtain ⟨nd2, hnd2, hnd2p⟩ := hINV.childBack (d.ino, d)
      (alookup_mem _ _ _ hlookd) k hk
    exact ⟨nd2, hnd2, hINV.keys (k, nd2) (alookup_mem _ _ _ hnd2)⟩
  -- run the child-removal loop
  obtain ⟨rINV, rnext, rdead, ⟨dd1, rdd1, rdd1ch, rdd1p, rdd1n⟩, ridx, rnone⟩ :=
    removeChildrenLoop d.ino hd1 feed (m.list_children d.ino) m hINV
      hcfacts hddclause hidxd
  -- remove the directory itself
  have hrem : (removeFold m (m.list_children d.ino)).remove_node d.ino =
      .ok (removedState (removeFold m (m.list_children d.ino)) d.ino dd1) :=
    remove_node_succeeds _ d.ino dd1 hd1 rdd1
  set s1 := removeFold m (m.list_children d.ino) with hs1
  set s2 := removedState s1 d.ino dd1 with hs2
  have hINV2 : TreeINV s2 := TreeINV.remove s1 d.ino dd1 rINV hd1 rdd1 rdd1ch
  have hs2next : s2.next_ino = m.next_ino := by
    rw [hs2]
    show s1.next_ino = m.next_ino
    exact rnext
  have hs2idx : alookup s2.name_to_ino (1, feed) = none := by
    show alookup (aerase s1.name_to_ino (dd1.parent_ino, dd1.name)) (1, feed) = none
    rw [rdd1p, rdd1n, alookup_aerase, if_pos rfl]
  have hs2byname : s2.get_node_by_name 1 feed = none := by
    unfold InodeManager.get_node_by_name
    rw [hs2idx]
  have hs2dead : ∀ c ∈ m.list_children d.ino,
      alookup s2.nodes (c : VNode).ino = none := by
    intro c hc
    exact removedState_preserves_none s1 d.ino dd1 _ (rdead c hc)
  have hs2ddead : alookup s2.nodes d.ino = none := by
    rw [hs2, removedState_lookup, if_pos rfl]
  -- remove_feed computes to s2
  have hrf : remove_feed m feed = s2 := by
    unfold remove_feed
    simp only [hd0]
    rw [hrem]
  -- create the fresh feed directory
  obtain ⟨r2, hr2, hr2d, _⟩ := hINV2.rootMem
  have h1lt : (1 : Nat) < s2.next_ino := hINV2.freshNodes _ (alookup_mem _ _ _ hr2)
  have hr2dir : r2.is_directory = true := by
    unfold VNode.is_directory
    rw [hr2d]
    rfl
  have hcd : s2.create_node ext 1 feed (.feedDirectory feed) =
      .ok (s2.next_ino, createdState ext s2 1 feed (.feedDirectory feed)) :=
    create_node_succeeds ext s2 1 feed _ r2 hr2 hr2dir hs2byname
  set f := s2.next_ino with hfdef
  set s3 := createdState ext s2 1 feed (.feedDirectory feed) with hs3
  have hINV3 : TreeINV s3 := TreeINV.create ext s2 1 feed _ r2 hINV2 hr2 hr2dir hs2byname
  have hfresh2 : ∀ pr ∈ s2.nodes, (pr : Nat × VNode).1 ≠ s2.next_ino := by
    intro pr hpr
    have := hINV2.freshNodes pr hpr
    omega
  have hlook3 := createdState_lookup ext s2 1 feed (.feedDirectory feed)
    hfresh2 (by omega)
  have hs3idx : alookup s3.name_to_ino (1, feed) = some f := by
    show alookup (ainsert s2.name_to_ino (1, feed) s2.next_ino) (1, feed) = some f
    rw [alookup_ainsert, if_pos rfl]
  have hs3nf : alookup s3.nodes f = some
      (VNode.new ext s2.next_ino 1 feed (.feedDirectory feed)) := by
    rw [hs3, hlook3 f, if_pos rfl]
  have hs3names : (s3.list_children f).map VNode.name = [] := by
    unfold InodeManager.list_children InodeManager.get_node
    simp only [hs3nf]
    rfl
  have hs3idxf : ∀ x, (alookup s3.name_to_ino (f, x)).isSome = true →
      x ∈ ([] : List String) := by
    intro x hx
    have hnone : alookup s2.name_to_ino (f, x) = none := by
      apply alookup_eq_none_of_keys
      intro q hq
      intro heq
      have hb : f < f := by
        have hc2 := (hINV2.freshIdx q hq).1
        rw [heq] at hc2
        exact hc2
      omega
    rw [show s3.name_to_ino = ainsert s2.name_to_ino (1, feed) s2.next_ino from rfl,
      alookup_ainsert] at hx
    rw [if_neg (by intro heq; have := congrArg Prod.fst heq; simp at this; omega)] at hx
    rw [hnone] at hx
    exact absurd hx (by simp)
  have hf1 : f ≠ 1 := by omega
  have hs3dead : ∀ k ∈ d.ino :: (m.list_children d.ino).map VNode.ino,
      k < f ∧ alookup s3.nodes k = none := by
    intro k hk
    have hklt : k < f := by
      rcases List.mem_cons.mp hk with rfl | hk2
      · omega
      · obtain ⟨c, hc, rfl⟩ := List.mem_map.mp hk2
        obtain ⟨_, nc, hnc, _, _, hnci⟩ := hcfacts c hc
        have h5 : c.ino < m.next_ino := hINV.freshNodes _ (alookup_mem _ _ _ hnc)
        omega
    refine ⟨hklt, ?_⟩
    rw [hs3]
    apply createdState_preserves_none
    · rcases List.mem_cons.mp hk with rfl | hk2
      · exact hs2ddead
      · obtain ⟨c, hc, rfl⟩ := List.mem_map.mp hk2
        exact hs2dead c hc
    · omega
  -- run the article-creation loop
  obtain ⟨fINV, ⟨dd2, f1, f2, f3, f4⟩, fdead⟩ :=
    addArticlesLoop ext feed f hf1 (d.ino :: (m.list_children d.ino).map VNode.ino)
      articles [] s3 hINV3 ⟨_, hs3idx, hs3nf, rfl, hs3names⟩ hs3idxf hfn
      (by simpa using hnodup) hs3dead
  -- add_feed computes to the fold result
  have haf : add_feed ext m feed articles = addArticlesFold ext feed s3 articles := by
    simp only [add_feed, InodeManager.create_feed_directory, hrf, hcd]
  rw [haf]
  have hdd2ino : dd2.ino = f := fINV.keys _ (alookup_mem _ _ _ f2)
  refine ⟨dd2, ?_, ?_, ?_, ?_, ?_, ?_⟩
  · unfold InodeManager.get_node_by_name
    rw [f1]
    exact f2
  · rw [hdd2ino]
    omega
  · rw [hdd2ino]
    omega
  · rw [hdd2ino, f4]
    simp
  · intro c hc
    show alookup (addArticlesFold ext feed s3 articles).nodes c.ino = none
    exact fdead c.ino (List.mem_cons_of_mem _ (List.mem_map_of_mem VNode.ino hc))
  · show alookup (addArticlesFold ext feed s3 articles).nodes d.ino = none
    exact fdead d.ino (List.mem_cons_self _ _)

/-- C1 witness: on the concrete tree mW1 (feed "f" with article artA, the
directory at ino 2), replacing the content with [artB] re-creates the feed
directory at the fresh ino mW1.next_ino, lists exactly artB's filename and
removes the old nodes. -/
theorem C1_add_feed_replaces_subtree_witness :
    dW1.ino ≠ 1 ∧
    (∃ d2, (add_feed ext0 mW1 "f" [artB]).get_node_by_name 1 "f" = some d2 ∧
      d2.ino = mW1.next_ino ∧ d2.ino ≠ dW1.ino ∧
      ((add_feed ext0 mW1 "f" [artB]).list_children d2.ino).map VNode.name =
        [artB].filterMap Article.markdown_filename ∧
      (∀ c ∈ mW1.list_children dW1.ino,
        (add_feed ext0 mW1 "f" [artB]).get_node (c : VNode).ino = none) ∧
      (add_feed ext0 mW1 "f" [artB]).get_node dW1.ino = none) :=
  ⟨by decide,
   C1_add_feed_replaces_subtree ext0 mW1 "f" [artB] dW1
     (by
       have h : mW1 = execOps ext0 (InodeManager.new ext0) w1ops := rfl
       rw [h]
       exact treeINV_exec ext0 w1ops (InodeManager.new ext0) (treeINV_new ext0)
         (by decide))
     (by decide) (by decide) (by decide) (by decide) (by decide)⟩

end RssFuse
